import Mathlib

/-!
# Mint-event ingestion and aggregation (`src/mint.js`)

A shallow embedding of the ingestion pipeline of `src/mint.js`:

* the conversion table `conversionFactors` and the per-event conversion done by
  `addOrUpdateUserEvent`;
* the in-memory Aggregate Store `events`, the Dedup Ledger `processedEvents`, the
  Cursor `latestBlockProcessed`, and the two files they are written to;
* the catch-up routine `fetchHistoricalEvents` and the poll routine `pollForNewEvents`.

Modelling conventions.

* Amounts are kept by the program as decimal strings and parsed with `BigInt` on every
  use; the model keeps the arbitrary-precision integer they denote (`Int`).  BigInt
  division truncates towards zero, which is `Int.tdiv`.
* The conversion factors are decimal literals; the model keeps their exact rational value.
  `Math.round x` is `⌊x + 1/2⌋`.  (The double-precision product `factor * 100` differs from
  the exact product by far less than `1/2`, so the rounded integer is the same.)
* A JavaScript `Set` of strings iterates in insertion order; it is modelled as the list of
  its members in insertion order, `add` appending a member that is not yet present.
* `Array.prototype.sort` is the engine's routine; it is modelled as an insertion sort
  driven by the comparator written in the source.
* The chain provider is external.  One `Provider` value describes how the provider answers
  during one cycle: `none` is a rejected promise.  An `async` routine that awaits a rejected
  promise rejects itself; it is modelled as `Except.error` carrying the program state at that
  moment, `Except.ok` carrying the state when the routine resolves.
* `State.io` is the log of the external calls made so far (provider calls with their
  answers, file writes with their content), in order.
* A BigInt division by `0n` throws.  `titanXAmount` is written with the total `Int.tdiv`;
  `titanXAmountChecked` keeps the throwing path, and the two are shown to agree because the
  divisor is never zero.
* The program loads only with ethers v6: `new ethers.JsonRpcProvider` (line 13) does not
  exist in v5.  A v6 log carries its position in the block as `index` and has no property
  `logIndex`, so the read `log.logIndex` of lines 86 and 111 gives `undefined`, which a
  template string renders as the text `undefined`.
-/

namespace Mint

/-! ## Data model -/

/-- One record of the `events` array (the Aggregate Store). -/
structure UserEvent where
  user : String
  morpheusAmount : Int
  titanXAmount : Int
deriving DecidableEq, Repr

/-- A decoded `MintExecuted` log as returned by `contract.queryFilter` of ethers v6:
`log.blockNumber`, `log.transactionHash`, `log.index` (the position of the log in its
block) and the three `log.args`. -/
structure Log where
  blockNumber : Nat
  transactionHash : String
  index : Nat
  user : String
  morpheusAmount : Int
  mintCycleId : Int
deriving DecidableEq, Repr

/-- An external call made by the program, with its answer or its content. -/
inductive Effect where
  | getBlockNumber (result : Option Nat)
  | queryFilter (fromBlock toBlock : Nat) (result : Option (List Log))
  | writeEvents (content : List UserEvent)
  | writeProcessedEvents (content : List String)
deriving DecidableEq, Repr

/-- The mutable state of the process: the three module-level variables `events`,
`processedEvents`, `latestBlockProcessed` (`none` is `undefined`), the content of the two
files `mintEvents.json` and `processedEvents.json`, and the log of external calls. -/
structure State where
  events : List UserEvent
  processedEvents : List String
  latestBlockProcessed : Option Nat
  eventsFile : List UserEvent
  processedEventsFile : List String
  io : List Effect
deriving DecidableEq, Repr

/-- The state right after module initialisation when neither file exists: both stores
empty, both files created empty, the Cursor `undefined`. -/
def State.initial : State :=
  { events := [], processedEvents := [], latestBlockProcessed := none,
    eventsFile := [], processedEventsFile := [], io := [] }

/-- How the chain provider answers during one cycle. -/
structure Provider where
  getBlockNumber : Option Nat
  queryFilter : Nat → Nat → Option (List Log)

/-! ## Conversion table -/

/-- The object literal `conversionFactors` (lines 34-49), as its list of entries. -/
def conversionFactors : List (Int × ℚ) :=
  [(1, 1.0), (2, 0.96), (3, 0.92), (4, 0.88), (5, 0.84), (6, 0.80), (7, 0.76),
   (8, 0.72), (9, 0.68), (10, 0.64), (11, 0.60), (12, 0.56), (13, 0.52), (14, 0.48)]

/-- The expression `conversionFactors[cycleId] || 1.0` (line 61): a missing key gives
`undefined`, and `undefined` and `0` are falsy. -/
def conversionFactor (cycleId : Int) : ℚ :=
  match conversionFactors.lookup cycleId with
  | some f => if f = 0 then 1.0 else f
  | none => 1.0

/-- The function `Math.round`: the nearest integer, a half rounded up. -/
def mathRound (x : ℚ) : Int := ⌊x + 1 / 2⌋

/-- The divisor `BigInt(Math.round(conversionFactor * 100))` of line 62. -/
def scale (cycleId : Int) : Int := mathRound (conversionFactor cycleId * 100)

/-- The value `titanXAmount` of line 62:
`(BigInt(morpheusAmount) * 100n) / BigInt(Math.round(conversionFactor * 100))`. -/
def titanXAmount (morpheusAmount : Int) (cycleId : Int) : Int :=
  (morpheusAmount * 100).tdiv (scale cycleId)

/-! ## Aggregate Store -/

/-- The comparator of line 52: `(a, b) => (BigInt(b.titanXAmount) > BigInt(a.titanXAmount) ? 1 : -1)`. -/
def compareFn (a b : UserEvent) : Int :=
  if b.titanXAmount > a.titanXAmount then 1 else -1

/-- Insertion of `x` into `ys` in front of the first element that the comparator does not
put before `x`. -/
def insertBy (cmp : UserEvent → UserEvent → Int) (x : UserEvent) : List UserEvent → List UserEvent
  | [] => [x]
  | y :: ys => if cmp x y < 0 then x :: y :: ys else y :: insertBy cmp x ys

/-- The call `events.sort(cmp)`, as an insertion sort. -/
def arraySort (cmp : UserEvent → UserEvent → Int) (xs : List UserEvent) : List UserEvent :=
  xs.foldl (fun acc x => insertBy cmp x acc) []

/-- The function `saveEventsToFile` (lines 51-54): sort `events` in place, write the file. -/
def saveEventsToFile (s : State) : State :=
  let events := arraySort compareFn s.events
  { s with events := events, eventsFile := events, io := s.io ++ [Effect.writeEvents events] }

/-- The function `saveProcessedEventsToFile` (lines 56-58). -/
def saveProcessedEventsToFile (s : State) : State :=
  { s with processedEventsFile := s.processedEvents,
           io := s.io ++ [Effect.writeProcessedEvents s.processedEvents] }

/-- The in-place update of lines 67-68 on the record that `events.find` returned, the first
record of `user`. -/
def updateUserEvent (user : String) (morpheusAmount titanX : Int) : List UserEvent → List UserEvent
  | [] => []
  | e :: es =>
    if e.user == user then
      { e with morpheusAmount := e.morpheusAmount + morpheusAmount,
               titanXAmount := e.titanXAmount + titanX } :: es
    else e :: updateUserEvent user morpheusAmount titanX es

/-- The merge step of `addOrUpdateUserEvent` (lines 64-75): update the record found by
`events.find(event => event.user === user)`, or push a new record. -/
def mergeUserEvent (user : String) (morpheusAmount titanX : Int) (events : List UserEvent) :
    List UserEvent :=
  match events.find? (fun event => event.user == user) with
  | some _ => updateUserEvent user morpheusAmount titanX events
  | none => events ++ [{ user := user, morpheusAmount := morpheusAmount, titanXAmount := titanX }]

/-- The function `addOrUpdateUserEvent` (lines 60-77). -/
def addOrUpdateUserEvent (user : String) (morpheusAmount : Int) (cycleId : Int) (s : State) :
    State :=
  let titanX := titanXAmount morpheusAmount cycleId
  saveEventsToFile { s with events := mergeUserEvent user morpheusAmount titanX s.events }

/-! ## Ingestion -/

/-- The property read `log.logIndex` of lines 86 and 111.  A log of ethers v6 has no such
property (its position is `log.index`), so the read gives `undefined`, here `none`, for
every log. -/
def Log.logIndex (_log : Log) : Option Nat := none

/-- How a template string renders a value that is a number or `undefined`. -/
def templateValue : Option Nat → String
  | none => "undefined"
  | some n => toString n

/-- The template string of lines 86 and 111. -/
def eventId (log : Log) : String :=
  log.transactionHash ++ "-" ++ templateValue log.logIndex

/-- The body of the `forEach` callback (lines 84-93 and 109-118): the dedup test, the
apply, the record. -/
def processLog (log : Log) (s : State) : State :=
  if !(s.processedEvents.contains (eventId log)) then
    let s1 := addOrUpdateUserEvent log.user log.morpheusAmount log.mintCycleId s
    { s1 with processedEvents := s1.processedEvents ++ [eventId log] }
  else s

/-- The loop `logs.forEach(...)`. -/
def forEachLog (logs : List Log) (s : State) : State :=
  logs.foldl (fun acc log => processLog log acc) s

/-- The function `fetchHistoricalEvents` (lines 79-97). -/
def fetchHistoricalEvents (startingBlock : Nat) (p : Provider) (s : State) : Except State State :=
  let s1 := { s with io := s.io ++ [Effect.getBlockNumber p.getBlockNumber] }
  match p.getBlockNumber with
  | none => Except.error s1
  | some latestBlock =>
    let logs? := p.queryFilter startingBlock latestBlock
    let s2 := { s1 with io := s1.io ++ [Effect.queryFilter startingBlock latestBlock logs?] }
    match logs? with
    | none => Except.error s2
    | some logs => Except.ok (saveProcessedEventsToFile (forEachLog logs s2))

/-- The value of `latestBlockProcessed` after line 105,
`if (!latestBlockProcessed) latestBlockProcessed = latestBlock;`:
`undefined` and `0` are falsy. -/
def cursorAfterGuard (latestBlockProcessed : Option Nat) (latestBlock : Nat) : Nat :=
  match latestBlockProcessed with
  | none => latestBlock
  | some c => if c = 0 then latestBlock else c

/-- The function `pollForNewEvents` (lines 100-124). -/
def pollForNewEvents (p : Provider) (s : State) : Except State State :=
  let s1 := { s with io := s.io ++ [Effect.getBlockNumber p.getBlockNumber] }
  match p.getBlockNumber with
  | none => Except.error s1
  | some latestBlock =>
    let cursor := cursorAfterGuard s1.latestBlockProcessed latestBlock
    let s2 := { s1 with latestBlockProcessed := some cursor }
    if latestBlock > cursor then
      let logs? := p.queryFilter (cursor + 1) latestBlock
      let s3 := { s2 with io := s2.io ++ [Effect.queryFilter (cursor + 1) latestBlock logs?] }
      match logs? with
      | none => Except.error s3
      | some logs =>
        let s4 := forEachLog logs s3
        saveProcessedEventsToFile { s4 with latestBlockProcessed := some latestBlock }
          |> Except.ok
    else Except.ok s2

/-- The state a routine leaves behind, resolved or rejected. -/
def after (r : Except State State) : State :=
  match r with
  | Except.ok s => s
  | Except.error s => s

/-- A sequence of calls `addOrUpdateUserEvent(user, morpheusAmount, cycleId)`. -/
def applyCalls (calls : List (String × Int × Int)) (s : State) : State :=
  calls.foldl (fun acc c => addOrUpdateUserEvent c.1 c.2.1 c.2.2 acc) s

/-- A sequence of poll cycles, one provider behaviour per cycle.  A cycle that rejects
hands the state it left to the next cycle. -/
def pollCycles (ps : List Provider) (s : State) : State :=
  ps.foldl (fun acc p => after (pollForNewEvents p acc)) s

/-- The startup sequence of lines 136-143: catch-up, then (once it resolved) the poll
cycles of the interval timer. -/
def run (startingBlock : Nat) (p0 : Provider) (ps : List Provider) (s : State) : State :=
  match fetchHistoricalEvents startingBlock p0 s with
  | Except.error s1 => s1
  | Except.ok s1 => pollCycles ps s1

/-! ## Notions used to state the properties -/

/-- The range queries issued so far, in order: the `(fromBlock, toBlock)` of every
`contract.queryFilter` call in the log. -/
def rangeQueries : List Effect → List (Nat × Nat)
  | [] => []
  | Effect.queryFilter a b _ :: io => (a, b) :: rangeQueries io
  | _ :: io => rangeQueries io

/-- The events returned so far: the batches of all range queries that succeeded, in the
order returned. -/
def returnedLogs : List Effect → List Log
  | [] => []
  | Effect.queryFilter _ _ (some logs) :: io => logs ++ returnedLogs io
  | _ :: io => returnedLogs io

/-- The file writes made so far, in order. -/
def fileWrites : List Effect → List Effect
  | [] => []
  | Effect.writeEvents c :: io => Effect.writeEvents c :: fileWrites io
  | Effect.writeProcessedEvents c :: io => Effect.writeProcessedEvents c :: fileWrites io
  | _ :: io => fileWrites io

/-- Each distinct event id exactly once: the first occurrence of every event id, in the
order returned. -/
def firstOccurrences : List Log → List Log
  | [] => []
  | l :: ls => l :: (firstOccurrences ls).filter (fun l2 => eventId l2 != eventId l)

/-- The sum of the `morpheusAmount` of the events of `user` among `logs`. -/
def morpheusSum (user : String) (logs : List Log) : Int :=
  ((logs.filter (fun l => l.user == user)).map (fun l => l.morpheusAmount)).sum

/-- The sum of the per-event converted amounts of the events of `user` among `logs`. -/
def titanXSum (user : String) (logs : List Log) : Int :=
  ((logs.filter (fun l => l.user == user)).map
    (fun l => titanXAmount l.morpheusAmount l.mintCycleId)).sum

/-- The sum of `morpheusAmount` over the records of `user` in the store. -/
def storedMorpheus (user : String) (events : List UserEvent) : Int :=
  ((events.filter (fun e => e.user == user)).map (fun e => e.morpheusAmount)).sum

/-- The sum of `titanXAmount` over the records of `user` in the store. -/
def storedTitanX (user : String) (events : List UserEvent) : Int :=
  ((events.filter (fun e => e.user == user)).map (fun e => e.titanXAmount)).sum

/-- A call `addOrUpdateUserEvent(user, morpheusAmount, cycleId)` seen as the event it
applies. -/
def callLog (c : String × Int × Int) : Log :=
  { blockNumber := 0, transactionHash := "", index := 0,
    user := c.1, morpheusAmount := c.2.1, mintCycleId := c.2.2 }

/-- The store is ordered by `titanXAmount`, non-increasing from each entry to the next. -/
def SortedByTitanX (events : List UserEvent) : Prop :=
  events.Pairwise (fun a b => b.titanXAmount ≤ a.titanXAmount)

/-- The store is ordered by `morpheusAmount`, non-increasing from each entry to the next. -/
def SortedByMorpheus (events : List UserEvent) : Prop :=
  events.Pairwise (fun a b => b.morpheusAmount ≤ a.morpheusAmount)

instance (events : List UserEvent) : Decidable (SortedByTitanX events) := by
  unfold SortedByTitanX; infer_instance

instance (events : List UserEvent) : Decidable (SortedByMorpheus events) := by
  unfold SortedByMorpheus; infer_instance

/-- The external event source over an append-only chain: the events of `chain` whose
block height lies in `[fromBlock, toBlock]`, in chain order. -/
def queryRange (chain : List Log) (fromBlock toBlock : Nat) : List Log :=
  chain.filter (fun l => decide (fromBlock ≤ l.blockNumber) && decide (l.blockNumber ≤ toBlock))

/-- A provider that reports chain head `head` and answers range queries from `chain`. -/
def chainProvider (head : Nat) (chain : List Log) : Provider :=
  { getBlockNumber := some head, queryFilter := fun a b => some (queryRange chain a b) }

/-- The five program variables and files a cycle may change are the same in both states
(the log of external calls apart). -/
def SameStores (s t : State) : Prop :=
  s.events = t.events ∧ s.processedEvents = t.processedEvents ∧
  s.latestBlockProcessed = t.latestBlockProcessed ∧
  s.eventsFile = t.eventsFile ∧ s.processedEventsFile = t.processedEventsFile

instance (s t : State) : Decidable (SameStores s t) := by
  unfold SameStores; infer_instance

/-- The events of a batch that the dedup test lets through when the ledger holds `seen`:
the first occurrence of every event id that is not in `seen`. -/
def freshLogs (seen : List String) (logs : List Log) : List Log :=
  (firstOccurrences logs).filter (fun l => !(seen.contains (eventId l)))

/-- The store accounts for exactly the events `applied`: one record per user of `applied`,
whose two amounts are the sums over that user's events. -/
def Accounts (events : List UserEvent) (applied : List Log) : Prop :=
  (events.map (fun e => e.user)).Nodup ∧
  (∀ v, v ∈ events.map (fun e => e.user) ↔ v ∈ applied.map (fun l => l.user)) ∧
  (∀ v, storedMorpheus v events = morpheusSum v applied) ∧
  (∀ v, storedTitanX v events = titanXSum v applied)

/-- Exactly-once accounting of a state against its own log of range queries. -/
def ExactlyOnce (s : State) : Prop :=
  s.processedEvents = (firstOccurrences (returnedLogs s.io)).map eventId ∧
  Accounts s.events (firstOccurrences (returnedLogs s.io))

/-- An event at height 105, the first `MintExecuted` log of its transaction. -/
def exampleEvent : Log :=
  { blockNumber := 105, transactionHash := "0xb2", index := 0,
    user := "bob", morpheusAmount := 20, mintCycleId := 2 }

/-- A second event of the transaction of `exampleEvent`, at the next log position. -/
def exampleSameTransaction : Log :=
  { blockNumber := 105, transactionHash := "0xb2", index := 1,
    user := "alice", morpheusAmount := 30, mintCycleId := 3 }

/-- The catch-up batch of the gap-free catch-up example: three events at heights `B+1`,
`B+5`, `B+5` for `B = 100`, the last two in one transaction at ascending log positions. -/
def exampleBatch : List Log :=
  [ { blockNumber := 101, transactionHash := "0xa1", index := 0,
      user := "alice", morpheusAmount := 10, mintCycleId := 1 },
    exampleEvent,
    exampleSameTransaction ]

/-- Two calls for one user whose quotients sum to less than the quotient of the sum:
`floor(600/92) + floor(600/92) = 12`, `floor(1200/92) = 13`. -/
def exampleCalls : List (String × Int × Int) :=
  [("alice", 6, 3), ("alice", 6, 3)]

/-- Two calls after which the store is ordered by `titanXAmount` and not by
`morpheusAmount`: `alice` has `100` converted at cycle 14 to `208`, `bob` has `150`
converted at cycle 1 to `150`. -/
def exampleUnsortedCalls : List (String × Int × Int) :=
  [("alice", 100, 14), ("bob", 150, 1)]

/-- An event at height 21, between the head 20 seen by catch-up and the head 22 seen by
the first poll cycle. -/
def gapEvent : Log :=
  { blockNumber := 21, transactionHash := "0xc3", index := 0,
    user := "carol", morpheusAmount := 50, mintCycleId := 1 }

/-- A state whose Cursor holds height 0: the state reached from the initial state on a
chain whose head is still block 0, after catch-up from block 0 and one poll cycle. -/
def cursorZeroState : State :=
  run 0 (chainProvider 0 []) [chainProvider 0 []] State.initial

/-- A state whose Cursor holds height 20. -/
def cursorTwentyState : State :=
  { State.initial with latestBlockProcessed := some 20 }

/-- A provider whose chain-head query is rejected. -/
def headFails : Provider :=
  { getBlockNumber := none, queryFilter := fun _ _ => none }

/-- A provider that reports chain head `head` and rejects every range query. -/
def queryFails (head : Nat) : Provider :=
  { getBlockNumber := some head, queryFilter := fun _ _ => none }

/-- BigInt division `a / b`: a zero divisor throws `RangeError: Division by zero`,
any other divisor gives the quotient truncated towards zero. -/
def bigIntDiv (a b : Int) : Except String Int :=
  if b = 0 then Except.error "RangeError: Division by zero" else Except.ok (a.tdiv b)

/-- Line 62 with the error path of the BigInt division kept. -/
def titanXAmountChecked (morpheusAmount : Int) (cycleId : Int) : Except String Int :=
  bigIntDiv (morpheusAmount * 100) (scale cycleId)

/-- The record `r` after the update of lines 67-68 with amounts `m` and `t`. -/
def bump (r : UserEvent) (m t : Int) : UserEvent :=
  { r with morpheusAmount := r.morpheusAmount + m, titanXAmount := r.titanXAmount + t }

/-- A store with two users, ordered by `titanXAmount`. -/
def exampleStore : State :=
  applyCalls exampleUnsortedCalls State.initial

/-- No record is lost and no amount decreases from `before` to `later`: every record of
`before` has a record of the same user in `later` with both amounts at least as large. -/
def NeverDecreases (before later : List UserEvent) : Prop :=
  ∀ r ∈ before, ∃ r2 ∈ later, r2.user = r.user ∧
    r.morpheusAmount ≤ r2.morpheusAmount ∧ r.titanXAmount ≤ r2.titanXAmount

/-! ## Conversion lemmas -/

theorem scale_known (c : Int) (h1 : 1 ≤ c) (h14 : c ≤ 14) : scale c = 104 - 4 * c := by
  interval_cases c <;> decide!

theorem conversionFactor_unknown (c : Int) (h : ¬ (1 ≤ c ∧ c ≤ 14)) : conversionFactor c = 1 := by
  have hl : conversionFactors.lookup c = none := by
    simp only [conversionFactors, List.lookup_cons, List.lookup_nil]
    have : ∀ k : Int, 1 ≤ k → k ≤ 14 → (c == k) = false := by
      intro k hk1 hk2
      simp only [beq_eq_false_iff_ne, ne_eq]
      omega
    simp [this]
  simp [conversionFactor, hl]
  norm_num

theorem scale_unknown (c : Int) (h : ¬ (1 ≤ c ∧ c ≤ 14)) : scale c = 100 := by
  unfold scale
  rw [conversionFactor_unknown c h]
  decide!

theorem scale_eq (c : Int) : scale c = if 1 ≤ c ∧ c ≤ 14 then 104 - 4 * c else 100 := by
  split
  · next h => exact scale_known c h.1 h.2
  · next h => exact scale_unknown c h

theorem scale_cast (c : Int) : (scale c : ℚ) = conversionFactor c * 100 := by
  by_cases h : 1 ≤ c ∧ c ≤ 14
  · obtain ⟨h1, h2⟩ := h
    interval_cases c <;> rw [scale_known _ (by decide) (by decide)] <;>
      simp [conversionFactor, conversionFactors, List.lookup] <;> norm_num
  · rw [scale_unknown c h, conversionFactor_unknown c h]; norm_num

theorem scale_pos (c : Int) : 0 < scale c := by
  rw [scale_eq]; split <;> omega

theorem titanXAmount_eq_floor (p c : Int) (hp : 0 ≤ p) :
    titanXAmount p c = ⌊((p * 100 : Int) : ℚ) / (scale c : ℚ)⌋ := by
  have hs := scale_pos c
  unfold titanXAmount
  rw [Int.tdiv_eq_ediv (by omega) (by omega)]
  have hnat : ((scale c).toNat : Int) = scale c := Int.toNat_of_nonneg (by omega)
  have hfloor := Rat.floor_intCast_div_natCast (p * 100) (scale c).toNat
  rw [hnat] at hfloor
  rw [← hfloor, ← Int.cast_natCast, hnat]

/-! ## Sorting lemmas -/

theorem insertBy_perm (cmp : UserEvent → UserEvent → Int) (x : UserEvent) (ys : List UserEvent) :
    (insertBy cmp x ys).Perm (x :: ys) := by
  induction ys with
  | nil => exact List.Perm.refl _
  | cons y ys ih =>
    simp only [insertBy]
    split
    · exact List.Perm.refl _
    · exact (List.Perm.cons y ih).trans (List.Perm.swap x y ys)

theorem foldl_insertBy_perm (cmp : UserEvent → UserEvent → Int) (xs acc : List UserEvent) :
    (xs.foldl (fun acc x => insertBy cmp x acc) acc).Perm (xs ++ acc) := by
  induction xs generalizing acc with
  | nil => exact List.Perm.refl _
  | cons x xs ih =>
    simp only [List.foldl_cons, List.cons_append]
    exact (ih _).trans ((List.Perm.append_left xs (insertBy_perm cmp x acc)).trans List.perm_middle)

theorem arraySort_perm (cmp : UserEvent → UserEvent → Int) (xs : List UserEvent) :
    (arraySort cmp xs).Perm xs := by
  have h := foldl_insertBy_perm cmp xs []
  simpa [arraySort] using h

theorem compareFn_neg_iff (x y : UserEvent) : compareFn x y < 0 ↔ y.titanXAmount ≤ x.titanXAmount := by
  unfold compareFn
  split <;> constructor <;> intro h <;> omega

theorem insertBy_sorted (x : UserEvent) (ys : List UserEvent) (h : SortedByTitanX ys) :
    SortedByTitanX (insertBy compareFn x ys) := by
  induction ys with
  | nil => simp [insertBy, SortedByTitanX]
  | cons y ys ih =>
    unfold SortedByTitanX at h ih ⊢
    rw [List.pairwise_cons] at h
    simp only [insertBy]
    split
    · next hc =>
      rw [compareFn_neg_iff] at hc
      refine List.pairwise_cons.2 ⟨?_, List.pairwise_cons.2 h⟩
      intro z hz
      rcases List.mem_cons.1 hz with rfl | hz
      · exact hc
      · exact le_trans (h.1 z hz) hc
    · next hc =>
      rw [compareFn_neg_iff] at hc
      refine List.pairwise_cons.2 ⟨?_, ih h.2⟩
      intro z hz
      rcases List.mem_cons.1 ((insertBy_perm compareFn x ys).mem_iff.1 hz) with rfl | hz
      · omega
      · exact h.1 z hz

theorem foldl_insertBy_sorted (xs acc : List UserEvent) (h : SortedByTitanX acc) :
    SortedByTitanX (xs.foldl (fun acc x => insertBy compareFn x acc) acc) := by
  induction xs generalizing acc with
  | nil => exact h
  | cons x xs ih => exact ih _ (insertBy_sorted x acc h)

theorem arraySort_sorted (xs : List UserEvent) : SortedByTitanX (arraySort compareFn xs) :=
  foldl_insertBy_sorted xs [] List.Pairwise.nil

/-! ## Lemmas on the merge step -/

theorem mergeUserEvent_nil (u : String) (m t : Int) :
    mergeUserEvent u m t [] = [{ user := u, morpheusAmount := m, titanXAmount := t }] := rfl

theorem mergeUserEvent_cons (u : String) (m t : Int) (e : UserEvent) (es : List UserEvent) :
    mergeUserEvent u m t (e :: es) =
      if e.user == u then
        { e with morpheusAmount := e.morpheusAmount + m, titanXAmount := e.titanXAmount + t } :: es
      else e :: mergeUserEvent u m t es := by
  by_cases h : (e.user == u) = true
  · simp [mergeUserEvent, List.find?_cons, h, updateUserEvent]
  · simp only [mergeUserEvent, List.find?_cons, h, updateUserEvent]
    cases List.find? (fun event => event.user == u) es <;> simp

theorem storedMorpheus_perm (v : String) {es fs : List UserEvent} (h : es.Perm fs) :
    storedMorpheus v es = storedMorpheus v fs :=
  ((h.filter _).map _).sum_eq

theorem storedTitanX_perm (v : String) {es fs : List UserEvent} (h : es.Perm fs) :
    storedTitanX v es = storedTitanX v fs :=
  ((h.filter _).map _).sum_eq

theorem storedMorpheus_cons (v : String) (e : UserEvent) (es : List UserEvent) :
    storedMorpheus v (e :: es) =
      (if e.user == v then e.morpheusAmount else 0) + storedMorpheus v es := by
  by_cases h : (e.user == v) = true <;> simp [storedMorpheus, List.filter_cons, h]

theorem storedTitanX_cons (v : String) (e : UserEvent) (es : List UserEvent) :
    storedTitanX v (e :: es) =
      (if e.user == v then e.titanXAmount else 0) + storedTitanX v es := by
  by_cases h : (e.user == v) = true <;> simp [storedTitanX, List.filter_cons, h]

theorem storedMorpheus_merge (v u : String) (m t : Int) (es : List UserEvent) :
    storedMorpheus v (mergeUserEvent u m t es) =
      storedMorpheus v es + (if u == v then m else 0) := by
  induction es with
  | nil =>
    rw [mergeUserEvent_nil, storedMorpheus_cons]
    simp [storedMorpheus]
  | cons e es ih =>
    rw [mergeUserEvent_cons]
    by_cases he : (e.user == u) = true
    · have heu : e.user = u := by simpa using he
      rw [if_pos he, storedMorpheus_cons, storedMorpheus_cons, heu]
      split <;> simp
      ring
    · rw [if_neg he, storedMorpheus_cons, storedMorpheus_cons, ih]
      ring

theorem storedTitanX_merge (v u : String) (m t : Int) (es : List UserEvent) :
    storedTitanX v (mergeUserEvent u m t es) =
      storedTitanX v es + (if u == v then t else 0) := by
  induction es with
  | nil =>
    rw [mergeUserEvent_nil, storedTitanX_cons]
    simp [storedTitanX]
  | cons e es ih =>
    rw [mergeUserEvent_cons]
    by_cases he : (e.user == u) = true
    · have heu : e.user = u := by simpa using he
      rw [if_pos he, storedTitanX_cons, storedTitanX_cons, heu]
      split <;> simp
      ring
    · rw [if_neg he, storedTitanX_cons, storedTitanX_cons, ih]
      ring

theorem users_merge (u : String) (m t : Int) (es : List UserEvent) :
    (mergeUserEvent u m t es).map (fun e => e.user) =
      if u ∈ es.map (fun e => e.user) then es.map (fun e => e.user)
      else es.map (fun e => e.user) ++ [u] := by
  induction es with
  | nil => simp [mergeUserEvent_nil]
  | cons e es ih =>
    rw [mergeUserEvent_cons]
    by_cases he : (e.user == u) = true
    · have heu : e.user = u := by simpa using he
      simp [heu]
    · have hne : ¬ e.user = u := by simpa using he
      have hne2 : ¬ u = e.user := fun h => hne h.symm
      rw [if_neg he, List.map_cons, ih, List.map_cons]
      by_cases hm : u ∈ List.map (fun e => e.user) es
      · rw [if_pos hm, if_pos (List.mem_cons_of_mem _ hm)]
      · have hm2 : ¬ u ∈ e.user :: List.map (fun e => e.user) es := by
          intro h
          rcases List.mem_cons.1 h with h | h
          · exact hne2 h
          · exact hm h
        rw [if_neg hm, if_neg hm2]
        rfl

/-! ## Lemmas on the log of external calls -/

theorem rangeQueries_append (a b : List Effect) :
    rangeQueries (a ++ b) = rangeQueries a ++ rangeQueries b := by
  induction a with
  | nil => rfl
  | cons e a ih => cases e <;> simp [rangeQueries, ih]

theorem returnedLogs_append (a b : List Effect) :
    returnedLogs (a ++ b) = returnedLogs a ++ returnedLogs b := by
  induction a with
  | nil => rfl
  | cons e a ih =>
    cases e with
    | queryFilter x y r => cases r <;> simp [returnedLogs, ih]
    | getBlockNumber r => simp [returnedLogs, ih]
    | writeEvents c => simp [returnedLogs, ih]
    | writeProcessedEvents c => simp [returnedLogs, ih]

theorem fileWrites_append (a b : List Effect) :
    fileWrites (a ++ b) = fileWrites a ++ fileWrites b := by
  induction a with
  | nil => rfl
  | cons e a ih => cases e <;> simp [fileWrites, ih]

/-! ## Lemmas on first occurrences -/

theorem freshLogs_nil (seen : List String) : freshLogs seen [] = [] := rfl

theorem freshLogs_cons_seen (seen : List String) (l : Log) (ls : List Log)
    (h : seen.contains (eventId l) = true) : freshLogs seen (l :: ls) = freshLogs seen ls := by
  have hmem : eventId l ∈ seen := by simpa using h
  simp only [freshLogs, firstOccurrences, List.filter_cons, h, List.filter_filter]
  simp only [Bool.not_true, Bool.false_eq_true, if_false]
  apply List.filter_congr
  intro x _
  by_cases hx : eventId x = eventId l
  · simp [hx, hmem]
  · simp [hx]

theorem freshLogs_cons_new (seen : List String) (l : Log) (ls : List Log)
    (h : seen.contains (eventId l) = false) :
    freshLogs seen (l :: ls) = l :: freshLogs (seen ++ [eventId l]) ls := by
  simp only [freshLogs, firstOccurrences, List.filter_cons, h, List.filter_filter]
  simp only [Bool.not_false, if_true, List.cons.injEq, true_and]
  apply List.filter_congr
  intro x _
  by_cases hx : eventId x = eventId l
  · simp [hx]
  · simp [hx]

theorem firstOccurrences_append (A B : List Log) :
    firstOccurrences (A ++ B) =
      firstOccurrences A ++ freshLogs ((firstOccurrences A).map eventId) B := by
  induction A with
  | nil => simp [firstOccurrences, freshLogs]
  | cons a A ih =>
    have h1 : firstOccurrences (a :: (A ++ B)) =
        a :: (firstOccurrences (A ++ B)).filter (fun l2 => eventId l2 != eventId a) := rfl
    have h2 : firstOccurrences (a :: A) =
        a :: (firstOccurrences A).filter (fun l2 => eventId l2 != eventId a) := rfl
    rw [List.cons_append, h1, h2, ih, List.filter_append, List.cons_append]
    congr 2
    unfold freshLogs
    rw [List.filter_filter]
    apply List.filter_congr
    intro x _
    by_cases hx : eventId x = eventId a
    · simp [hx]
    · have key : (eventId x ∈ List.map eventId
          (List.filter (fun l2 => eventId l2 != eventId a) (firstOccurrences A))) ↔
          (∃ y ∈ firstOccurrences A, eventId y = eventId x) := by
        constructor
        · intro h
          obtain ⟨y, hy, e⟩ := List.mem_map.1 h
          exact ⟨y, (List.mem_filter.1 hy).1, e⟩
        · rintro ⟨y, hy, e⟩
          exact List.mem_map.2 ⟨y, List.mem_filter.2 ⟨hy, by simpa [e] using hx⟩, e⟩
      simp [hx, key]

theorem firstOccurrences_of_nodup (logs : List Log) (h : (logs.map eventId).Nodup) :
    firstOccurrences logs = logs := by
  induction logs with
  | nil => rfl
  | cons l ls ih =>
    rw [List.map_cons, List.nodup_cons] at h
    simp only [firstOccurrences, ih h.2, List.cons.injEq, true_and]
    apply List.filter_eq_self.2
    intro x hx
    have : eventId x ≠ eventId l := by
      intro heq
      exact h.1 (heq ▸ List.mem_map_of_mem eventId hx)
    simpa using this

theorem mem_firstOccurrences_ids (logs : List Log) (i : String) :
    i ∈ (firstOccurrences logs).map eventId ↔ i ∈ logs.map eventId := by
  induction logs with
  | nil => simp [firstOccurrences]
  | cons l ls ih =>
    simp only [firstOccurrences, List.map_cons, List.mem_cons]
    constructor
    · rintro (h | h)
      · exact Or.inl h
      · right
        rw [← ih]
        obtain ⟨x, hx, rfl⟩ := List.mem_map.1 h
        exact List.mem_map_of_mem eventId (List.mem_filter.1 hx).1
    · rintro (h | h)
      · exact Or.inl h
      · by_cases hi : i = eventId l
        · exact Or.inl hi
        · right
          rw [← ih] at h
          obtain ⟨x, hx, rfl⟩ := List.mem_map.1 h
          exact List.mem_map_of_mem eventId (List.mem_filter.2 ⟨hx, by simpa using hi⟩)

theorem firstOccurrences_ids_nodup (logs : List Log) :
    ((firstOccurrences logs).map eventId).Nodup := by
  induction logs with
  | nil => simp [firstOccurrences]
  | cons l ls ih =>
    simp only [firstOccurrences, List.map_cons, List.nodup_cons]
    constructor
    · intro h
      obtain ⟨x, hx, heq⟩ := List.mem_map.1 h
      have := (List.mem_filter.1 hx).2
      simp [heq] at this
    · exact (ih.sublist ((List.filter_sublist _).map eventId))

/-! ## Lemmas on `addOrUpdateUserEvent` -/

theorem addOrUpdateUserEvent_events (u : String) (m c : Int) (s : State) :
    (addOrUpdateUserEvent u m c s).events =
      arraySort compareFn (mergeUserEvent u m (titanXAmount m c) s.events) := rfl

theorem addOrUpdateUserEvent_perm (u : String) (m c : Int) (s : State) :
    (addOrUpdateUserEvent u m c s).events.Perm
      (mergeUserEvent u m (titanXAmount m c) s.events) :=
  arraySort_perm _ _

theorem addOrUpdateUserEvent_sorted (u : String) (m c : Int) (s : State) :
    SortedByTitanX (addOrUpdateUserEvent u m c s).events :=
  arraySort_sorted _

theorem morpheusSum_append_one (v : String) (A : List Log) (l : Log) :
    morpheusSum v (A ++ [l]) = morpheusSum v A + (if l.user == v then l.morpheusAmount else 0) := by
  by_cases h : (l.user == v) = true <;>
    simp [morpheusSum, List.filter_append, List.filter_cons, h]

theorem titanXSum_append_one (v : String) (A : List Log) (l : Log) :
    titanXSum v (A ++ [l]) =
      titanXSum v A + (if l.user == v then titanXAmount l.morpheusAmount l.mintCycleId else 0) := by
  by_cases h : (l.user == v) = true <;>
    simp [titanXSum, List.filter_append, List.filter_cons, h]

theorem accounts_nil : Accounts [] [] := by
  refine ⟨List.nodup_nil, ?_, ?_, ?_⟩ <;> intro v <;> simp [storedMorpheus, morpheusSum, storedTitanX, titanXSum]

theorem accounts_add (es es2 : List UserEvent) (A : List Log) (l : Log) (h : Accounts es A)
    (hp : es2.Perm (mergeUserEvent l.user l.morpheusAmount
      (titanXAmount l.morpheusAmount l.mintCycleId) es)) :
    Accounts es2 (A ++ [l]) := by
  obtain ⟨hnd, hmem, hm, ht⟩ := h
  have hu := users_merge l.user l.morpheusAmount (titanXAmount l.morpheusAmount l.mintCycleId) es
  have hpu := hp.map (fun e => e.user)
  refine ⟨?_, ?_, ?_, ?_⟩
  · rw [hpu.nodup_iff, hu]
    split
    · exact hnd
    · next hn =>
      rw [List.nodup_append]
      refine ⟨hnd, List.nodup_singleton _, ?_⟩
      intro a ha hb
      rw [List.mem_singleton] at hb
      exact hn (hb ▸ ha)
  · intro v
    rw [hpu.mem_iff, hu, List.map_append, List.mem_append, ← hmem v]
    split
    · next hin =>
      constructor
      · exact Or.inl
      · rintro (h | h)
        · exact h
        · simp only [List.map_cons, List.map_nil, List.mem_singleton] at h
          exact h ▸ hin
    · simp
  · intro v
    rw [storedMorpheus_perm v hp, storedMorpheus_merge, morpheusSum_append_one, hm v]
  · intro v
    rw [storedTitanX_perm v hp, storedTitanX_merge, titanXSum_append_one, ht v]

theorem storedMorpheus_absent (v : String) (es : List UserEvent)
    (h : v ∉ es.map (fun e => e.user)) : storedMorpheus v es = 0 := by
  induction es with
  | nil => rfl
  | cons e es ih =>
    rw [List.map_cons, List.mem_cons, not_or] at h
    have hne : ¬ (e.user == v) = true := by
      intro hb
      have heq : e.user = v := by simpa using hb
      exact h.1 heq.symm
    rw [storedMorpheus_cons, if_neg hne, ih h.2, zero_add]

theorem storedTitanX_absent (v : String) (es : List UserEvent)
    (h : v ∉ es.map (fun e => e.user)) : storedTitanX v es = 0 := by
  induction es with
  | nil => rfl
  | cons e es ih =>
    rw [List.map_cons, List.mem_cons, not_or] at h
    have hne : ¬ (e.user == v) = true := by
      intro hb
      have heq : e.user = v := by simpa using hb
      exact h.1 heq.symm
    rw [storedTitanX_cons, if_neg hne, ih h.2, zero_add]

theorem stored_of_mem (es : List UserEvent) (hnd : (es.map (fun e => e.user)).Nodup)
    (r : UserEvent) (hr : r ∈ es) :
    storedMorpheus r.user es = r.morpheusAmount ∧ storedTitanX r.user es = r.titanXAmount := by
  induction es with
  | nil => cases hr
  | cons e es ih =>
    rw [List.map_cons, List.nodup_cons] at hnd
    rw [storedMorpheus_cons, storedTitanX_cons]
    rcases List.mem_cons.1 hr with rfl | hr
    · rw [storedMorpheus_absent _ _ hnd.1, storedTitanX_absent _ _ hnd.1]
      simp
    · have hne : ¬ (e.user == r.user) = true := by
        intro hb
        have heq : e.user = r.user := by simpa using hb
        exact hnd.1 (heq ▸ List.mem_map_of_mem (fun e => e.user) hr)
      rw [if_neg hne, if_neg hne, zero_add, zero_add]
      exact ih hnd.2 hr

/-! ## Lemmas on the ingestion loop -/

theorem processLog_seen (l : Log) (s : State) (h : s.processedEvents.contains (eventId l) = true) :
    processLog l s = s := by
  simp only [processLog, h, Bool.not_true, Bool.false_eq_true, if_false]

theorem processLog_new (l : Log) (s : State) (h : s.processedEvents.contains (eventId l) = false) :
    processLog l s =
      { addOrUpdateUserEvent l.user l.morpheusAmount l.mintCycleId s with
        processedEvents := s.processedEvents ++ [eventId l] } := by
  simp only [processLog, h, Bool.not_false, if_true]
  rfl

theorem forEachLog_nil (s : State) : forEachLog [] s = s := rfl

theorem forEachLog_cons (l : Log) (ls : List Log) (s : State) :
    forEachLog (l :: ls) s = forEachLog ls (processLog l s) := rfl

theorem forEachLog_spec (logs : List Log) (s : State) (A : List Log)
    (hA : Accounts s.events A) :
    (forEachLog logs s).processedEvents =
        s.processedEvents ++ (freshLogs s.processedEvents logs).map eventId ∧
      Accounts (forEachLog logs s).events (A ++ freshLogs s.processedEvents logs) := by
  induction logs generalizing s A with
  | nil => simpa [forEachLog_nil, freshLogs_nil] using hA
  | cons l ls ih =>
    rw [forEachLog_cons]
    cases h : s.processedEvents.contains (eventId l) with
    | true =>
      rw [processLog_seen l s h, freshLogs_cons_seen _ _ _ h]
      exact ih s A hA
    | false =>
      rw [processLog_new l s h, freshLogs_cons_new _ _ _ h]
      have hA2 : Accounts ({ addOrUpdateUserEvent l.user l.morpheusAmount l.mintCycleId s with
          processedEvents := s.processedEvents ++ [eventId l] } : State).events (A ++ [l]) :=
        accounts_add s.events _ A l hA (addOrUpdateUserEvent_perm _ _ _ s)
      have := ih _ (A ++ [l]) hA2
      simpa using this

theorem processLog_frame (l : Log) (s : State) :
    (processLog l s).latestBlockProcessed = s.latestBlockProcessed ∧
    (processLog l s).processedEventsFile = s.processedEventsFile ∧
    rangeQueries (processLog l s).io = rangeQueries s.io ∧
    returnedLogs (processLog l s).io = returnedLogs s.io := by
  cases h : s.processedEvents.contains (eventId l) with
  | true => rw [processLog_seen l s h]; exact ⟨rfl, rfl, rfl, rfl⟩
  | false =>
    rw [processLog_new l s h]
    refine ⟨rfl, rfl, ?_, ?_⟩
    · show rangeQueries (s.io ++ [_]) = _
      rw [rangeQueries_append]; simp [rangeQueries]
    · show returnedLogs (s.io ++ [_]) = _
      rw [returnedLogs_append]; simp [returnedLogs]

theorem forEachLog_frame (logs : List Log) (s : State) :
    (forEachLog logs s).latestBlockProcessed = s.latestBlockProcessed ∧
    (forEachLog logs s).processedEventsFile = s.processedEventsFile ∧
    rangeQueries (forEachLog logs s).io = rangeQueries s.io ∧
    returnedLogs (forEachLog logs s).io = returnedLogs s.io := by
  induction logs generalizing s with
  | nil => exact ⟨rfl, rfl, rfl, rfl⟩
  | cons l ls ih =>
    rw [forEachLog_cons]
    obtain ⟨h1, h2, h3, h4⟩ := ih (processLog l s)
    obtain ⟨g1, g2, g3, g4⟩ := processLog_frame l s
    exact ⟨h1.trans g1, h2.trans g2, h3.trans g3, h4.trans g4⟩

/-! ## Exactly-once accounting is kept by every cycle -/

theorem exactlyOnce_congr (s t : State) (h : ExactlyOnce s)
    (h1 : t.processedEvents = s.processedEvents)
    (h2 : t.events = s.events) (h3 : returnedLogs t.io = returnedLogs s.io) : ExactlyOnce t := by
  unfold ExactlyOnce at h ⊢
  rw [h1, h2, h3]
  exact h

theorem exactlyOnce_initial : ExactlyOnce State.initial :=
  ⟨rfl, accounts_nil⟩

theorem exactlyOnce_batch (s t : State) (logs : List Log) (h : ExactlyOnce s)
    (h1 : t.processedEvents = s.processedEvents) (h2 : t.events = s.events)
    (h3 : returnedLogs t.io = returnedLogs s.io ++ logs) :
    ExactlyOnce (forEachLog logs t) := by
  obtain ⟨hl, ha⟩ := h
  have hspec := forEachLog_spec logs t (firstOccurrences (returnedLogs s.io)) (h2 ▸ ha)
  have hio := (forEachLog_frame logs t).2.2.2
  unfold ExactlyOnce
  rw [hio, h3, firstOccurrences_append, ← hl, ← h1]
  refine ⟨?_, hspec.2⟩
  rw [hspec.1, List.map_append, h1, hl]

theorem fetchHistoricalEvents_head_fails (startingBlock : Nat) (p : Provider) (s : State)
    (hb : p.getBlockNumber = none) :
    fetchHistoricalEvents startingBlock p s =
      Except.error { s with io := s.io ++ [Effect.getBlockNumber none] } := by
  unfold fetchHistoricalEvents
  simp only [hb]

theorem fetchHistoricalEvents_query_fails (startingBlock : Nat) (p : Provider) (s : State)
    (latestBlock : Nat) (hb : p.getBlockNumber = some latestBlock)
    (hq : p.queryFilter startingBlock latestBlock = none) :
    fetchHistoricalEvents startingBlock p s =
      Except.error { s with io := s.io ++ [Effect.getBlockNumber (some latestBlock)] ++
        [Effect.queryFilter startingBlock latestBlock none] } := by
  unfold fetchHistoricalEvents
  simp only [hb, hq]

theorem fetchHistoricalEvents_ok (startingBlock : Nat) (p : Provider) (s : State)
    (latestBlock : Nat) (logs : List Log) (hb : p.getBlockNumber = some latestBlock)
    (hq : p.queryFilter startingBlock latestBlock = some logs) :
    fetchHistoricalEvents startingBlock p s =
      Except.ok (saveProcessedEventsToFile (forEachLog logs
        { s with io := s.io ++ [Effect.getBlockNumber (some latestBlock)] ++
          [Effect.queryFilter startingBlock latestBlock (some logs)] })) := by
  unfold fetchHistoricalEvents
  simp only [hb, hq]

theorem pollForNewEvents_head_fails (p : Provider) (s : State) (hb : p.getBlockNumber = none) :
    pollForNewEvents p s = Except.error { s with io := s.io ++ [Effect.getBlockNumber none] } := by
  unfold pollForNewEvents
  simp only [hb]

theorem pollForNewEvents_no_progress (p : Provider) (s : State) (latestBlock : Nat)
    (hb : p.getBlockNumber = some latestBlock)
    (hc : ¬ latestBlock > cursorAfterGuard s.latestBlockProcessed latestBlock) :
    pollForNewEvents p s =
      Except.ok { s with
        latestBlockProcessed := some (cursorAfterGuard s.latestBlockProcessed latestBlock),
        io := s.io ++ [Effect.getBlockNumber (some latestBlock)] } := by
  unfold pollForNewEvents
  simp only [hb, hc, if_false]

theorem pollForNewEvents_query_fails (p : Provider) (s : State) (latestBlock : Nat)
    (hb : p.getBlockNumber = some latestBlock)
    (hc : latestBlock > cursorAfterGuard s.latestBlockProcessed latestBlock)
    (hq : p.queryFilter (cursorAfterGuard s.latestBlockProcessed latestBlock + 1) latestBlock
      = none) :
    pollForNewEvents p s =
      Except.error { s with
        latestBlockProcessed := some (cursorAfterGuard s.latestBlockProcessed latestBlock),
        io := s.io ++ [Effect.getBlockNumber (some latestBlock)] ++
          [Effect.queryFilter (cursorAfterGuard s.latestBlockProcessed latestBlock + 1)
            latestBlock none] } := by
  unfold pollForNewEvents
  simp only [hb, hc, if_true, hq]

theorem pollForNewEvents_ok (p : Provider) (s : State) (latestBlock : Nat) (logs : List Log)
    (hb : p.getBlockNumber = some latestBlock)
    (hc : latestBlock > cursorAfterGuard s.latestBlockProcessed latestBlock)
    (hq : p.queryFilter (cursorAfterGuard s.latestBlockProcessed latestBlock + 1) latestBlock
      = some logs) :
    pollForNewEvents p s =
      Except.ok (saveProcessedEventsToFile
        { forEachLog logs { s with
            latestBlockProcessed := some (cursorAfterGuard s.latestBlockProcessed latestBlock),
            io := s.io ++ [Effect.getBlockNumber (some latestBlock)] ++
              [Effect.queryFilter (cursorAfterGuard s.latestBlockProcessed latestBlock + 1)
                latestBlock (some logs)] } with
          latestBlockProcessed := some latestBlock }) := by
  unfold pollForNewEvents
  simp only [hb, hc, if_true, hq]

theorem returnedLogs_getBlockNumber (io : List Effect) (r : Option Nat) :
    returnedLogs (io ++ [Effect.getBlockNumber r]) = returnedLogs io := by
  rw [returnedLogs_append]; simp [returnedLogs]

theorem returnedLogs_query_none (io : List Effect) (a b : Nat) :
    returnedLogs (io ++ [Effect.queryFilter a b none]) = returnedLogs io := by
  rw [returnedLogs_append]; simp [returnedLogs]

theorem returnedLogs_query_some (io : List Effect) (a b : Nat) (logs : List Log) :
    returnedLogs (io ++ [Effect.queryFilter a b (some logs)]) = returnedLogs io ++ logs := by
  rw [returnedLogs_append]; simp [returnedLogs]

theorem returnedLogs_writeProcessedEvents (io : List Effect) (c : List String) :
    returnedLogs (io ++ [Effect.writeProcessedEvents c]) = returnedLogs io := by
  rw [returnedLogs_append]; simp [returnedLogs]

theorem exactlyOnce_fetchHistoricalEvents (startingBlock : Nat) (p : Provider) (s : State)
    (h : ExactlyOnce s) : ExactlyOnce (after (fetchHistoricalEvents startingBlock p s)) := by
  cases hb : p.getBlockNumber with
  | none =>
    rw [fetchHistoricalEvents_head_fails _ _ _ hb]
    exact exactlyOnce_congr s _ h rfl rfl (returnedLogs_getBlockNumber _ _)
  | some latestBlock =>
    cases hq : p.queryFilter startingBlock latestBlock with
    | none =>
      rw [fetchHistoricalEvents_query_fails _ _ _ _ hb hq]
      refine exactlyOnce_congr s _ h rfl rfl ?_
      show returnedLogs (_ ++ _ ++ _) = _
      rw [returnedLogs_query_none, returnedLogs_getBlockNumber]
    | some logs =>
      rw [fetchHistoricalEvents_ok _ _ _ _ _ hb hq]
      have hbatch := exactlyOnce_batch s
        { s with io := s.io ++ [Effect.getBlockNumber (some latestBlock)] ++
          [Effect.queryFilter startingBlock latestBlock (some logs)] } logs h rfl rfl
        (by show returnedLogs (_ ++ _ ++ _) = _
            rw [returnedLogs_query_some, returnedLogs_getBlockNumber])
      exact exactlyOnce_congr _ _ hbatch rfl rfl (returnedLogs_writeProcessedEvents _ _)

theorem exactlyOnce_pollForNewEvents (p : Provider) (s : State)
    (h : ExactlyOnce s) : ExactlyOnce (after (pollForNewEvents p s)) := by
  cases hb : p.getBlockNumber with
  | none =>
    rw [pollForNewEvents_head_fails _ _ hb]
    exact exactlyOnce_congr s _ h rfl rfl (returnedLogs_getBlockNumber _ _)
  | some latestBlock =>
    by_cases hc : latestBlock > cursorAfterGuard s.latestBlockProcessed latestBlock
    · cases hq : p.queryFilter (cursorAfterGuard s.latestBlockProcessed latestBlock + 1)
          latestBlock with
      | none =>
        rw [pollForNewEvents_query_fails _ _ _ hb hc hq]
        refine exactlyOnce_congr s _ h rfl rfl ?_
        show returnedLogs (_ ++ _ ++ _) = _
        rw [returnedLogs_query_none, returnedLogs_getBlockNumber]
      | some logs =>
        rw [pollForNewEvents_ok _ _ _ _ hb hc hq]
        have hbatch := exactlyOnce_batch s
          { s with
            latestBlockProcessed := some (cursorAfterGuard s.latestBlockProcessed latestBlock),
            io := s.io ++ [Effect.getBlockNumber (some latestBlock)] ++
              [Effect.queryFilter (cursorAfterGuard s.latestBlockProcessed latestBlock + 1)
                latestBlock (some logs)] } logs h rfl rfl
          (by show returnedLogs (_ ++ _ ++ _) = _
              rw [returnedLogs_query_some, returnedLogs_getBlockNumber])
        exact exactlyOnce_congr _ _ hbatch rfl rfl (returnedLogs_writeProcessedEvents _ _)
    · rw [pollForNewEvents_no_progress _ _ _ hb hc]
      exact exactlyOnce_congr s _ h rfl rfl (returnedLogs_getBlockNumber _ _)

theorem exactlyOnce_pollCycles (ps : List Provider) (s : State) (h : ExactlyOnce s) :
    ExactlyOnce (pollCycles ps s) := by
  induction ps generalizing s with
  | nil => exact h
  | cons p ps ih => exact ih _ (exactlyOnce_pollForNewEvents p s h)

theorem exactlyOnce_run (startingBlock : Nat) (p0 : Provider) (ps : List Provider) (s : State)
    (h : ExactlyOnce s) : ExactlyOnce (run startingBlock p0 ps s) := by
  have hf := exactlyOnce_fetchHistoricalEvents startingBlock p0 s h
  unfold run
  cases hr : fetchHistoricalEvents startingBlock p0 s with
  | error s1 => rw [hr] at hf; exact hf
  | ok s1 => rw [hr] at hf; exact exactlyOnce_pollCycles ps s1 hf

/-! ## Exactly-once accounting and idempotence -/

/-- Accounting relative to the ids the program builds.  Starting from the empty stores,
after catch-up and any number of poll cycles the ledger is the list of the distinct
values of `eventId` among the returned events, each once; the store holds one record per
user of the events counted, and every record's `morpheusAmount` is the sum over that
user's events, one event counted per value of `eventId`. -/
theorem accounting_of_built_ids (startingBlock : Nat) (p0 : Provider) (ps : List Provider) :
    (run startingBlock p0 ps State.initial).processedEvents =
        (firstOccurrences (returnedLogs (run startingBlock p0 ps State.initial).io)).map eventId ∧
    (run startingBlock p0 ps State.initial).processedEvents.Nodup ∧
    (∀ i, i ∈ (run startingBlock p0 ps State.initial).processedEvents ↔
        i ∈ (returnedLogs (run startingBlock p0 ps State.initial).io).map eventId) ∧
    ((run startingBlock p0 ps State.initial).events.map (fun e => e.user)).Nodup ∧
    (∀ l ∈ firstOccurrences (returnedLogs (run startingBlock p0 ps State.initial).io),
        ∃ r ∈ (run startingBlock p0 ps State.initial).events, r.user = l.user) ∧
    (∀ r ∈ (run startingBlock p0 ps State.initial).events,
        r.morpheusAmount = morpheusSum r.user
          (firstOccurrences (returnedLogs (run startingBlock p0 ps State.initial).io))) ∧
    (((returnedLogs (run startingBlock p0 ps State.initial).io).map eventId).Nodup →
      (run startingBlock p0 ps State.initial).processedEvents.length =
          (returnedLogs (run startingBlock p0 ps State.initial).io).length ∧
      ∀ r ∈ (run startingBlock p0 ps State.initial).events,
        r.morpheusAmount = morpheusSum r.user
          (returnedLogs (run startingBlock p0 ps State.initial).io)) := by
  obtain ⟨hl, hnd, hmem, hm, _⟩ := exactlyOnce_run startingBlock p0 ps State.initial
    exactlyOnce_initial
  have hsum : ∀ r ∈ (run startingBlock p0 ps State.initial).events,
      r.morpheusAmount = morpheusSum r.user
        (firstOccurrences (returnedLogs (run startingBlock p0 ps State.initial).io)) := by
    intro r hr
    rw [← hm r.user]
    exact ((stored_of_mem _ hnd r hr).1).symm
  refine ⟨hl, ?_, ?_, hnd, ?_, hsum, ?_⟩
  · rw [hl]; exact firstOccurrences_ids_nodup _
  · intro i
    rw [hl]; exact mem_firstOccurrences_ids _ i
  · intro l hl2
    have hu : l.user ∈ (run startingBlock p0 ps State.initial).events.map (fun e => e.user) :=
      (hmem l.user).2 (List.mem_map_of_mem (fun l => l.user) hl2)
    obtain ⟨r, hr, hru⟩ := List.mem_map.1 hu
    exact ⟨r, hr, hru⟩
  · intro hnodup
    have hfo := firstOccurrences_of_nodup _ hnodup
    rw [hfo] at hsum hl
    refine ⟨?_, hsum⟩
    rw [hl, List.length_map]

/-- C1 at a failing input.  Catch-up from block 100 to head 200 returns the three events
of `exampleBatch`, pairwise distinct in transaction hash and log position, the last two in
one transaction.  The ledger ends with two entries, not three, and `alice` with
`morpheusAmount` 10, not `10 + 30`: the second event of the transaction meets the id of
the first in the ledger and is never applied. -/
theorem second_event_of_a_transaction_is_not_counted :
    returnedLogs (run 100 (chainProvider 200 exampleBatch) [] State.initial).io = exampleBatch ∧
    (exampleBatch.map (fun l => (l.transactionHash, l.index))).Nodup ∧
    (run 100 (chainProvider 200 exampleBatch) [] State.initial).processedEvents =
      ["0xa1-undefined", "0xb2-undefined"] ∧
    (run 100 (chainProvider 200 exampleBatch) [] State.initial).events =
      [{ user := "bob", morpheusAmount := 20, titanXAmount := 20 },
       { user := "alice", morpheusAmount := 10, titanXAmount := 10 }] ∧
    morpheusSum "alice" exampleBatch = 40 := by
  decide!

/-- C2. The per-event dedup/apply/record step is idempotent: running it twice on the same
event gives exactly the state that running it once gives; and a batch whose event ids are
all in the ledger already changes nothing. -/
theorem ingestion_idempotent (s : State) (e : Log) (logs : List Log)
    (h : ∀ l ∈ logs, eventId l ∈ s.processedEvents) :
    processLog e (processLog e s) = processLog e s ∧ forEachLog logs s = s := by
  constructor
  · apply processLog_seen
    cases hc : s.processedEvents.contains (eventId e) with
    | true => rw [processLog_seen e s hc]; exact hc
    | false =>
      rw [processLog_new e s hc]
      show (s.processedEvents ++ [eventId e]).contains (eventId e) = true
      simp
  · induction logs with
    | nil => rfl
    | cons l ls ih =>
      have hl : s.processedEvents.contains (eventId l) = true := by
        simpa using h l (List.mem_cons_self _ _)
      rw [forEachLog_cons, processLog_seen l s hl]
      exact ih (fun x hx => h x (List.mem_cons_of_mem _ hx))

/-- C2 at a concrete input: the state after catch-up over `exampleBatch`, re-processing
its second event `exampleEvent` and re-processing the whole batch. -/
theorem ingestion_idempotent_example :
    (∀ l ∈ exampleBatch,
      eventId l ∈ (run 100 (chainProvider 200 exampleBatch) [] State.initial).processedEvents) ∧
    (processLog exampleEvent
        (processLog exampleEvent
          (run 100 (chainProvider 200 exampleBatch) [] State.initial)) =
      processLog exampleEvent
        (run 100 (chainProvider 200 exampleBatch) [] State.initial) ∧
     forEachLog exampleBatch (run 100 (chainProvider 200 exampleBatch) [] State.initial) =
      run 100 (chainProvider 200 exampleBatch) [] State.initial) :=
  ⟨by decide!, ingestion_idempotent _ _ _ (by decide!)⟩

/-! ## Sequences of `addOrUpdateUserEvent` calls -/

theorem applyCalls_nil (s : State) : applyCalls [] s = s := rfl

theorem applyCalls_cons (c : String × Int × Int) (cs : List (String × Int × Int)) (s : State) :
    applyCalls (c :: cs) s = applyCalls cs (addOrUpdateUserEvent c.1 c.2.1 c.2.2 s) := rfl

theorem accounts_applyCalls (calls : List (String × Int × Int)) (s : State) (A : List Log)
    (h : Accounts s.events A) :
    Accounts (applyCalls calls s).events (A ++ calls.map callLog) := by
  induction calls generalizing s A with
  | nil => simpa [applyCalls_nil] using h
  | cons c cs ih =>
    rw [applyCalls_cons]
    have h2 : Accounts (addOrUpdateUserEvent c.1 c.2.1 c.2.2 s).events (A ++ [callLog c]) :=
      accounts_add s.events _ A (callLog c) h (addOrUpdateUserEvent_perm c.1 c.2.1 c.2.2 s)
    have := ih _ (A ++ [callLog c]) h2
    simpa using this

theorem titanXSum_calls (v : String) (calls : List (String × Int × Int)) :
    titanXSum v (calls.map callLog) =
      ((calls.filter (fun c => c.1 == v)).map (fun c => titanXAmount c.2.1 c.2.2)).sum := by
  induction calls with
  | nil => rfl
  | cons c cs ih =>
    unfold titanXSum at ih ⊢
    by_cases h : (c.1 == v) = true
    · have h2 : ((callLog c).user == v) = true := h
      rw [List.map_cons, List.filter_cons, if_pos h2, List.filter_cons, if_pos h,
        List.map_cons, List.sum_cons, List.map_cons, List.sum_cons, ih]
      rfl
    · have h2 : ¬ ((callLog c).user == v) = true := h
      rw [List.map_cons, List.filter_cons, if_neg h2, List.filter_cons, if_neg h, ih]

theorem applyCalls_cons_sorted (cs : List (String × Int × Int)) (c : String × Int × Int)
    (s : State) :
    SortedByTitanX (applyCalls (c :: cs) s).events ∧
      (applyCalls (c :: cs) s).eventsFile = (applyCalls (c :: cs) s).events := by
  induction cs generalizing s c with
  | nil => exact ⟨addOrUpdateUserEvent_sorted _ _ _ s, rfl⟩
  | cons c2 cs ih =>
    rw [applyCalls_cons]
    exact ih c2 _

/-! ## Conversion and ordering of the store -/

/-- C3. Starting from the empty store, after any sequence of calls with non-negative
amounts there is one record per user called for, and its `titanXAmount` is the sum over
the calls for that user of `floor(amount * 100 / round(factor(cycle) * 100))`, each
quotient taken per call. -/
theorem titanX_is_sum_of_quotients (calls : List (String × Int × Int))
    (h : ∀ c ∈ calls, 0 ≤ c.2.1) :
    ((applyCalls calls State.initial).events.map (fun e => e.user)).Nodup ∧
    (∀ c ∈ calls, ∃ r ∈ (applyCalls calls State.initial).events, r.user = c.1) ∧
    (∀ r ∈ (applyCalls calls State.initial).events,
      r.titanXAmount =
        ((calls.filter (fun c => c.1 == r.user)).map
          (fun c => ⌊((c.2.1 * 100 : Int) : ℚ) /
            ((mathRound (conversionFactor c.2.2 * 100) : Int) : ℚ)⌋)).sum) := by
  have hacc := accounts_applyCalls calls State.initial [] accounts_nil
  rw [List.nil_append] at hacc
  obtain ⟨hnd, hmem, _, ht⟩ := hacc
  refine ⟨hnd, ?_, ?_⟩
  · intro c hc
    have hu : c.1 ∈ (applyCalls calls State.initial).events.map (fun e => e.user) :=
      (hmem c.1).2 (List.mem_map.2 ⟨callLog c, List.mem_map_of_mem callLog hc, rfl⟩)
    obtain ⟨r, hr, hru⟩ := List.mem_map.1 hu
    exact ⟨r, hr, hru⟩
  · intro r hr
    rw [← (stored_of_mem _ hnd r hr).2, ht r.user, titanXSum_calls]
    congr 1
    apply List.map_congr_left
    intro c hc
    exact titanXAmount_eq_floor c.2.1 c.2.2 (h c (List.mem_filter.1 hc).1)

/-- C3 at a concrete input: two calls of `6` at cycle 3 for one user give a stored
`titanXAmount` of `6 + 6 = 12`, where the quotient of the accumulated amount `12` would
be `13`. -/
theorem titanX_is_sum_of_quotients_example :
    (∀ c ∈ exampleCalls, 0 ≤ c.2.1) ∧
    (∀ r ∈ (applyCalls exampleCalls State.initial).events,
      r.titanXAmount =
        ((exampleCalls.filter (fun c => c.1 == r.user)).map
          (fun c => ⌊((c.2.1 * 100 : Int) : ℚ) /
            ((mathRound (conversionFactor c.2.2 * 100) : Int) : ℚ)⌋)).sum) ∧
    (applyCalls exampleCalls State.initial).events =
      [{ user := "alice", morpheusAmount := 12, titanXAmount := 12 }] ∧
    titanXAmount 12 3 = 13 :=
  ⟨by decide, (titanX_is_sum_of_quotients exampleCalls (by decide)).2.2, by decide!, by decide!⟩

/-- C4. For a non-negative amount `p` and any cycle id `c`, the `titanXAmount` that
`addOrUpdateUserEvent` computes and stores is `floor(p * 100 / s)` with
`s = round(factor(c) * 100)`, and `s` is exactly the factor of `c` in hundredths; for
`p = 1000`, `c = 3` the scale is `92` and the amount `1086`. -/
theorem conversion_correct (u : String) (p c : Int) (hp : 0 ≤ p) :
    titanXAmount p c =
      ⌊((p * 100 : Int) : ℚ) / ((mathRound (conversionFactor c * 100) : Int) : ℚ)⌋ ∧
    ((mathRound (conversionFactor c * 100) : Int) : ℚ) = conversionFactor c * 100 ∧
    (addOrUpdateUserEvent u p c State.initial).events =
      [{ user := u, morpheusAmount := p,
         titanXAmount := ⌊((p * 100 : Int) : ℚ) /
           ((mathRound (conversionFactor c * 100) : Int) : ℚ)⌋ }] ∧
    conversionFactor 3 = 92 / 100 ∧
    mathRound (conversionFactor 3 * 100) = 92 ∧
    titanXAmount 1000 3 = 1086 := by
  have hfl := titanXAmount_eq_floor p c hp
  refine ⟨hfl, scale_cast c, ?_, by decide!, by decide!, by decide!⟩
  have hfl2 : ⌊((p * 100 : Int) : ℚ) / ((mathRound (conversionFactor c * 100) : Int) : ℚ)⌋ =
      titanXAmount p c := hfl.symm
  rw [hfl2]
  rfl

/-- C4 at the input of the specification's example, `p = 1000` and `c = 3`. -/
theorem conversion_correct_example :
    (0 : Int) ≤ 1000 ∧
    titanXAmount 1000 3 =
      ⌊(((1000 : Int) * 100 : Int) : ℚ) / ((mathRound (conversionFactor 3 * 100) : Int) : ℚ)⌋ ∧
    titanXAmount 1000 3 = 1086 :=
  ⟨by decide, (conversion_correct "alice" 1000 3 (by decide)).1,
    (conversion_correct "alice" 1000 3 (by decide)).2.2.2.2.2⟩

/-- C5, as stated, fails: after the two calls of `exampleUnsortedCalls` the store, in
memory and in the file, is `alice (100, 208)` then `bob (150, 150)`, which is not
non-increasing in `morpheusAmount`. -/
theorem sorted_by_morpheus_fails :
    (applyCalls exampleUnsortedCalls State.initial).eventsFile =
      [{ user := "alice", morpheusAmount := 100, titanXAmount := 208 },
       { user := "bob", morpheusAmount := 150, titanXAmount := 150 }] ∧
    ¬ SortedByMorpheus (applyCalls exampleUnsortedCalls State.initial).eventsFile ∧
    ¬ SortedByMorpheus (applyCalls exampleUnsortedCalls State.initial).events := by
  decide!

/-- C5, amended. After any non-empty sequence of `addOrUpdateUserEvent` calls from any
state, and after any sequence of calls from the initial state, the store as persisted is
the store in memory and is ordered so that `titanXAmount` is non-increasing from each
entry to the next. -/
theorem persisted_store_sorted_by_titanX (s : State) (c : String × Int × Int)
    (cs : List (String × Int × Int)) :
    SortedByTitanX (applyCalls (c :: cs) s).eventsFile ∧
    (applyCalls (c :: cs) s).eventsFile = (applyCalls (c :: cs) s).events ∧
    SortedByTitanX (applyCalls cs State.initial).eventsFile ∧
    (applyCalls cs State.initial).eventsFile = (applyCalls cs State.initial).events := by
  have h1 := applyCalls_cons_sorted cs c s
  refine ⟨h1.2 ▸ h1.1, h1.2, ?_⟩
  cases cs with
  | nil => exact ⟨List.Pairwise.nil, rfl⟩
  | cons c2 cs =>
    have h2 := applyCalls_cons_sorted cs c2 State.initial
    exact ⟨h2.2 ▸ h2.1, h2.2⟩

/-! ## The Cursor -/

theorem cursorAfterGuard_of_lt (l : Option Nat) (H : Nat) (h : H > cursorAfterGuard l H) :
    l = some (cursorAfterGuard l H) := by
  cases l with
  | none => simp [cursorAfterGuard] at h
  | some c =>
    by_cases hc : c = 0
    · simp [cursorAfterGuard, hc] at h
    · simp [cursorAfterGuard, hc]

theorem cursorAfterGuard_pos (C H : Nat) (h : 0 < C) : cursorAfterGuard (some C) H = C := by
  have hc : ¬ C = 0 := by omega
  simp [cursorAfterGuard, hc]

theorem cursorAfterGuard_self (C : Nat) : cursorAfterGuard (some C) C = C := by
  by_cases hc : C = 0 <;> simp [cursorAfterGuard, hc]

theorem fetchHistoricalEvents_cursor (startingBlock : Nat) (p : Provider) (s : State) :
    (after (fetchHistoricalEvents startingBlock p s)).latestBlockProcessed =
      s.latestBlockProcessed := by
  cases hb : p.getBlockNumber with
  | none => rw [fetchHistoricalEvents_head_fails _ _ _ hb]; rfl
  | some latestBlock =>
    cases hq : p.queryFilter startingBlock latestBlock with
    | none => rw [fetchHistoricalEvents_query_fails _ _ _ _ hb hq]; rfl
    | some logs =>
      rw [fetchHistoricalEvents_ok _ _ _ _ _ hb hq]
      exact (forEachLog_frame logs _).1

theorem rangeQueries_getBlockNumber (io : List Effect) (r : Option Nat) :
    rangeQueries (io ++ [Effect.getBlockNumber r]) = rangeQueries io := by
  rw [rangeQueries_append]; simp [rangeQueries]

theorem rangeQueries_query (io : List Effect) (a b : Nat) (r : Option (List Log)) :
    rangeQueries (io ++ [Effect.queryFilter a b r]) = rangeQueries io ++ [(a, b)] := by
  rw [rangeQueries_append]; simp [rangeQueries]

theorem rangeQueries_writeProcessedEvents (io : List Effect) (c : List String) :
    rangeQueries (io ++ [Effect.writeProcessedEvents c]) = rangeQueries io := by
  rw [rangeQueries_append]; simp [rangeQueries]

theorem fileWrites_getBlockNumber (io : List Effect) (r : Option Nat) :
    fileWrites (io ++ [Effect.getBlockNumber r]) = fileWrites io := by
  rw [fileWrites_append]; simp [fileWrites]

/-- C6 at a failing input.  Catch-up from block 10 sees head 20 and an empty chain;
`gapEvent` is mined at height 21; the first poll cycle sees head 22 and the second head
25.  The only ranges ever queried are `[10, 20]` and `[23, 25]`: the Cursor ends at 25
while the event at height 21 is in neither store. -/
theorem cursor_skips_blocks_after_catch_up :
    (run 10 (chainProvider 20 []) [chainProvider 22 [gapEvent], chainProvider 25 [gapEvent]]
        State.initial).latestBlockProcessed = some 25 ∧
    (10 ≤ gapEvent.blockNumber ∧ gapEvent.blockNumber ≤ 25) ∧
    eventId gapEvent ∉
      (run 10 (chainProvider 20 []) [chainProvider 22 [gapEvent], chainProvider 25 [gapEvent]]
        State.initial).processedEvents ∧
    (run 10 (chainProvider 20 []) [chainProvider 22 [gapEvent], chainProvider 25 [gapEvent]]
        State.initial).events = [] ∧
    rangeQueries
      (run 10 (chainProvider 20 []) [chainProvider 22 [gapEvent], chainProvider 25 [gapEvent]]
        State.initial).io = [(10, 20), (23, 25)] := by
  decide!

/-- C7 at a failing input.  Catch-up from block 100 with chain head 200 resolves with the
Cursor still `undefined`, not 200; the first poll cycle (head 207) sets it to 207 and
issues no range query from 201: the only range ever queried is `[100, 200]`. -/
theorem catch_up_does_not_record_head :
    (after (fetchHistoricalEvents 100 (chainProvider 200 exampleBatch)
        State.initial)).latestBlockProcessed = none ∧
    (after (fetchHistoricalEvents 100 (chainProvider 200 exampleBatch)
        State.initial)).latestBlockProcessed ≠ some 200 ∧
    (run 100 (chainProvider 200 exampleBatch) [chainProvider 207 exampleBatch]
        State.initial).latestBlockProcessed = some 207 ∧
    rangeQueries (run 100 (chainProvider 200 exampleBatch) [chainProvider 207 exampleBatch]
        State.initial).io = [(100, 200)] := by
  decide!

/-- What the code does in general: a Cursor that is unset before catch-up is unset after
it, whatever head catch-up saw, and the next poll cycle, observing head `H1`, resolves
with the Cursor equal to `H1`. -/
theorem cursor_is_set_by_first_poll (startingBlock : Nat) (p p1 : Provider) (s : State)
    (H1 : Nat) (hs : s.latestBlockProcessed = none) (hp1 : p1.getBlockNumber = some H1) :
    (after (fetchHistoricalEvents startingBlock p s)).latestBlockProcessed = none ∧
    ∃ t, pollForNewEvents p1 (after (fetchHistoricalEvents startingBlock p s)) = Except.ok t ∧
      t.latestBlockProcessed = some H1 := by
  have hc : (after (fetchHistoricalEvents startingBlock p s)).latestBlockProcessed = none := by
    rw [fetchHistoricalEvents_cursor, hs]
  refine ⟨hc, ?_⟩
  have hg : cursorAfterGuard
      (after (fetchHistoricalEvents startingBlock p s)).latestBlockProcessed H1 = H1 := by
    rw [hc]; rfl
  have hnp := pollForNewEvents_no_progress p1 _ H1 hp1 (by rw [hg]; omega)
  rw [hg] at hnp
  exact ⟨_, hnp, rfl⟩

/-- C8, as stated, fails when the Cursor holds height 0, which line 105 treats as unset:
with chain head 5 the poll cycle issues no range query at all, not the query of `[1, 5]`,
and sets the Cursor to 5. -/
theorem poll_at_cursor_zero_queries_nothing :
    cursorZeroState.latestBlockProcessed = some 0 ∧
    (chainProvider 5 [gapEvent]).getBlockNumber = some 5 ∧
    rangeQueries (after (pollForNewEvents (chainProvider 5 [gapEvent]) cursorZeroState)).io
      = rangeQueries cursorZeroState.io ∧
    rangeQueries (after (pollForNewEvents (chainProvider 5 [gapEvent]) cursorZeroState)).io
      ≠ rangeQueries cursorZeroState.io ++ [(0 + 1, 5)] ∧
    (after (pollForNewEvents (chainProvider 5 [gapEvent])
      cursorZeroState)).latestBlockProcessed = some 5 := by
  decide!

/-- C8, amended. In a poll cycle in which the Cursor holds a height `C ≥ 1` and the
reported chain head `H` satisfies `H > C`, exactly one range query is issued, from `C + 1`
to `H`; when it succeeds the cycle resolves with the Cursor equal to `H`, whatever batch
was returned, the empty batch included. -/
theorem poll_progress (p : Provider) (s : State) (C H : Nat)
    (hC : s.latestBlockProcessed = some C) (hpos : 1 ≤ C)
    (hH : p.getBlockNumber = some H) (hlt : H > C) :
    rangeQueries (after (pollForNewEvents p s)).io = rangeQueries s.io ++ [(C + 1, H)] ∧
    (∀ logs, p.queryFilter (C + 1) H = some logs →
      ∃ t, pollForNewEvents p s = Except.ok t ∧ t.latestBlockProcessed = some H) ∧
    (p.queryFilter (C + 1) H = some [] →
      pollForNewEvents p s = Except.ok
        { s with latestBlockProcessed := some H,
                 processedEventsFile := s.processedEvents,
                 io := s.io ++ [Effect.getBlockNumber (some H)] ++
                   [Effect.queryFilter (C + 1) H (some [])] ++
                   [Effect.writeProcessedEvents s.processedEvents] }) := by
  have hg : cursorAfterGuard s.latestBlockProcessed H = C := by
    rw [hC]; exact cursorAfterGuard_pos C H hpos
  have hc : H > cursorAfterGuard s.latestBlockProcessed H := by rw [hg]; exact hlt
  refine ⟨?_, ?_, ?_⟩
  · cases hq : p.queryFilter (C + 1) H with
    | none =>
      rw [pollForNewEvents_query_fails p s H hH hc (by rw [hg]; exact hq), hg]
      show rangeQueries (_ ++ _ ++ _) = _
      rw [rangeQueries_query, rangeQueries_getBlockNumber]
    | some logs =>
      rw [pollForNewEvents_ok p s H logs hH hc (by rw [hg]; exact hq), hg]
      show rangeQueries (_ ++ _) = _
      rw [rangeQueries_writeProcessedEvents]
      show rangeQueries (forEachLog logs _).io = _
      rw [(forEachLog_frame logs _).2.2.1]
      show rangeQueries (_ ++ _ ++ _) = _
      rw [rangeQueries_query, rangeQueries_getBlockNumber]
  · intro logs hq
    rw [pollForNewEvents_ok p s H logs hH hc (by rw [hg]; exact hq)]
    exact ⟨_, rfl, rfl⟩
  · intro hq
    rw [pollForNewEvents_ok p s H [] hH hc (by rw [hg]; exact hq), hg]
    rfl

/-- C8, amended, at a concrete input: Cursor 20, head 25 and a chain holding `gapEvent`
at height 21. -/
theorem poll_progress_example :
    cursorTwentyState.latestBlockProcessed = some 20 ∧ 1 ≤ 20 ∧
    (chainProvider 25 [gapEvent]).getBlockNumber = some 25 ∧ 25 > 20 ∧
    rangeQueries (after (pollForNewEvents (chainProvider 25 [gapEvent]) cursorTwentyState)).io =
      rangeQueries cursorTwentyState.io ++ [(20 + 1, 25)] ∧
    (after (pollForNewEvents (chainProvider 25 [gapEvent])
      cursorTwentyState)).latestBlockProcessed = some 25 :=
  ⟨rfl, by decide, rfl, by decide,
    (poll_progress (chainProvider 25 [gapEvent]) cursorTwentyState 20 25 rfl (by decide) rfl
      (by decide)).1, by decide!⟩

/-- C9. A poll cycle that observes a chain head equal to the height the Cursor holds
resolves in the state it started from, the log of external calls extended by the
chain-head query alone: no range query, no file write, and the Aggregate Store, the Dedup
Ledger, the Cursor and both files unchanged. -/
theorem no_progress_poll_is_noop (p : Provider) (s : State) (C : Nat)
    (hC : s.latestBlockProcessed = some C) (hH : p.getBlockNumber = some C) :
    pollForNewEvents p s =
      Except.ok { s with io := s.io ++ [Effect.getBlockNumber (some C)] } ∧
    rangeQueries (after (pollForNewEvents p s)).io = rangeQueries s.io ∧
    fileWrites (after (pollForNewEvents p s)).io = fileWrites s.io ∧
    SameStores (after (pollForNewEvents p s)) s := by
  have hg : cursorAfterGuard s.latestBlockProcessed C = C := by
    rw [hC]; exact cursorAfterGuard_self C
  have hnp := pollForNewEvents_no_progress p s C hH (by rw [hg]; omega)
  rw [hg] at hnp
  have hst : ({ s with latestBlockProcessed := some C,
                       io := s.io ++ [Effect.getBlockNumber (some C)] } : State) =
      { s with io := s.io ++ [Effect.getBlockNumber (some C)] } := by
    rw [← hC]
  have heq : pollForNewEvents p s =
      Except.ok { s with io := s.io ++ [Effect.getBlockNumber (some C)] } := by
    rw [hnp, hst]
  rw [heq]
  refine ⟨rfl, ?_, ?_, ⟨rfl, rfl, rfl, rfl, rfl⟩⟩
  · exact rangeQueries_getBlockNumber _ _
  · exact fileWrites_getBlockNumber _ _

/-- C9 at a concrete input: Cursor 20 and head 20, over a chain that holds an event. -/
theorem no_progress_poll_is_noop_example :
    cursorTwentyState.latestBlockProcessed = some 20 ∧
    (chainProvider 20 [gapEvent]).getBlockNumber = some 20 ∧
    pollForNewEvents (chainProvider 20 [gapEvent]) cursorTwentyState =
      Except.ok { cursorTwentyState with
        io := cursorTwentyState.io ++ [Effect.getBlockNumber (some 20)] } ∧
    SameStores (after (pollForNewEvents (chainProvider 20 [gapEvent]) cursorTwentyState))
      cursorTwentyState :=
  ⟨rfl, rfl,
    (no_progress_poll_is_noop (chainProvider 20 [gapEvent]) cursorTwentyState 20 rfl rfl).1,
    (no_progress_poll_is_noop (chainProvider 20 [gapEvent]) cursorTwentyState 20 rfl rfl).2.2.2⟩

/-- C10. A catch-up or a poll cycle whose chain-head query or range query fails rejects,
and a cycle that rejects leaves the Cursor, the Aggregate Store and the Dedup Ledger, in
memory and in the files, as they were when it began. -/
theorem failed_cycle_changes_nothing (startingBlock : Nat) (p : Provider) (s : State) :
    (∀ t, fetchHistoricalEvents startingBlock p s = Except.error t → SameStores t s) ∧
    (∀ t, pollForNewEvents p s = Except.error t → SameStores t s) ∧
    (p.getBlockNumber = none →
      (∃ t, fetchHistoricalEvents startingBlock p s = Except.error t) ∧
      (∃ t, pollForNewEvents p s = Except.error t)) ∧
    (∀ H, p.getBlockNumber = some H → p.queryFilter startingBlock H = none →
      ∃ t, fetchHistoricalEvents startingBlock p s = Except.error t) ∧
    (∀ H C, p.getBlockNumber = some H → s.latestBlockProcessed = some C → 1 ≤ C → H > C →
      p.queryFilter (C + 1) H = none → ∃ t, pollForNewEvents p s = Except.error t) := by
  refine ⟨?_, ?_, ?_, ?_, ?_⟩
  · intro t ht
    cases hb : p.getBlockNumber with
    | none =>
      rw [fetchHistoricalEvents_head_fails _ _ _ hb] at ht
      cases ht
      exact ⟨rfl, rfl, rfl, rfl, rfl⟩
    | some latestBlock =>
      cases hq : p.queryFilter startingBlock latestBlock with
      | none =>
        rw [fetchHistoricalEvents_query_fails _ _ _ _ hb hq] at ht
        cases ht
        exact ⟨rfl, rfl, rfl, rfl, rfl⟩
      | some logs =>
        rw [fetchHistoricalEvents_ok _ _ _ _ _ hb hq] at ht
        cases ht
  · intro t ht
    cases hb : p.getBlockNumber with
    | none =>
      rw [pollForNewEvents_head_fails _ _ hb] at ht
      cases ht
      exact ⟨rfl, rfl, rfl, rfl, rfl⟩
    | some latestBlock =>
      by_cases hc : latestBlock > cursorAfterGuard s.latestBlockProcessed latestBlock
      · cases hq : p.queryFilter (cursorAfterGuard s.latestBlockProcessed latestBlock + 1)
            latestBlock with
        | none =>
          rw [pollForNewEvents_query_fails _ _ _ hb hc hq] at ht
          cases ht
          exact ⟨rfl, rfl, (cursorAfterGuard_of_lt _ _ hc).symm, rfl, rfl⟩
        | some logs =>
          rw [pollForNewEvents_ok _ _ _ _ hb hc hq] at ht
          cases ht
      · rw [pollForNewEvents_no_progress _ _ _ hb hc] at ht
        cases ht
  · intro hb
    exact ⟨⟨_, fetchHistoricalEvents_head_fails _ _ _ hb⟩, ⟨_, pollForNewEvents_head_fails _ _ hb⟩⟩
  · intro H hb hq
    exact ⟨_, fetchHistoricalEvents_query_fails _ _ _ _ hb hq⟩
  · intro H C hb hC hpos hlt hq
    have hg : cursorAfterGuard s.latestBlockProcessed H = C := by
      rw [hC]; exact cursorAfterGuard_pos C H hpos
    exact ⟨_, pollForNewEvents_query_fails p s H hb (by rw [hg]; exact hlt)
      (by rw [hg]; exact hq)⟩

/-- C10 at concrete inputs: on a state with Cursor 20, a rejected chain-head query and a
rejected range query (head 30) each make both routines reject, with the stores as they
were. -/
theorem failed_cycle_changes_nothing_example :
    (∃ t, pollForNewEvents headFails cursorTwentyState = Except.error t) ∧
    (∃ t, fetchHistoricalEvents 10 (queryFails 30) cursorTwentyState = Except.error t) ∧
    (∃ t, pollForNewEvents (queryFails 30) cursorTwentyState = Except.error t) ∧
    SameStores (after (pollForNewEvents headFails cursorTwentyState)) cursorTwentyState ∧
    SameStores (after (fetchHistoricalEvents 10 (queryFails 30) cursorTwentyState))
      cursorTwentyState ∧
    SameStores (after (pollForNewEvents (queryFails 30) cursorTwentyState))
      cursorTwentyState :=
  ⟨((failed_cycle_changes_nothing 10 headFails cursorTwentyState).2.2.1 rfl).2,
    (failed_cycle_changes_nothing 10 (queryFails 30) cursorTwentyState).2.2.2.1 30 rfl rfl,
    (failed_cycle_changes_nothing 10 (queryFails 30) cursorTwentyState).2.2.2.2 30 20 rfl rfl
      (by decide) (by decide) rfl,
    (failed_cycle_changes_nothing 10 headFails cursorTwentyState).2.1 _ rfl,
    (failed_cycle_changes_nothing 10 (queryFails 30) cursorTwentyState).1 _ rfl,
    (failed_cycle_changes_nothing 10 (queryFails 30) cursorTwentyState).2.1 _ rfl⟩

/-! ## The conversion table and the converted amount -/

theorem titanXAmount_unknown (p c : Int) (h : ¬ (1 ≤ c ∧ c ≤ 14)) : titanXAmount p c = p := by
  unfold titanXAmount
  rw [scale_unknown c h]
  exact Int.mul_tdiv_cancel p (by decide)

theorem scale_le (c : Int) : scale c ≤ 100 := by
  rw [scale_eq]; split <;> omega

theorem scale_ge (c : Int) : 48 ≤ scale c := by
  rw [scale_eq]; split <;> omega

theorem le_titanXAmount (p c : Int) (hp : 0 ≤ p) : p ≤ titanXAmount p c := by
  have hs := scale_pos c
  have hl := scale_le c
  unfold titanXAmount
  rw [Int.tdiv_eq_ediv (by omega) (by omega)]
  apply Int.le_ediv_of_mul_le hs
  nlinarith

theorem titanXAmount_nonneg (p c : Int) (hp : 0 ≤ p) : 0 ≤ titanXAmount p c :=
  le_trans hp (le_titanXAmount p c hp)

/-- C12. For a cycle id outside `1..14`, zero and negative ids included, the lookup
falls back to factor `1.0`, the scale is `100`, and the amount `addOrUpdateUserEvent`
computes and stores equals `p` exactly; for cycle id `999` and `p = 500` it is `500`. -/
theorem unknown_cycle_defaults_to_one (u : String) (p c : Int) (h : c < 1 ∨ 14 < c) :
    conversionFactors.lookup c = none ∧
    conversionFactor c = 1 ∧
    scale c = 100 ∧
    titanXAmount p c = p ∧
    (addOrUpdateUserEvent u p c State.initial).events =
      [{ user := u, morpheusAmount := p, titanXAmount := p }] ∧
    titanXAmount 500 999 = 500 := by
  have hc : ¬ (1 ≤ c ∧ c ≤ 14) := by omega
  have ht := titanXAmount_unknown p c hc
  refine ⟨?_, conversionFactor_unknown c hc, scale_unknown c hc, ht, ?_, by decide!⟩
  · simp only [conversionFactors, List.lookup_cons, List.lookup_nil]
    have : ∀ k : Int, 1 ≤ k → k ≤ 14 → (c == k) = false := by
      intro k hk1 hk2
      simp only [beq_eq_false_iff_ne, ne_eq]
      omega
    simp [this]
  · show arraySort compareFn (mergeUserEvent u p (titanXAmount p c) []) = _
    rw [ht]
    rfl

/-- C12 at the inputs of the specification's example, cycle id `999` with `p = 500`, and
at cycle id `0` and a negative cycle id. -/
theorem unknown_cycle_defaults_to_one_example :
    ((999 : Int) < 1 ∨ 14 < (999 : Int)) ∧
    titanXAmount 500 999 = 500 ∧ titanXAmount 500 0 = 500 ∧ titanXAmount 500 (-3) = 500 :=
  ⟨by decide, (unknown_cycle_defaults_to_one "alice" 500 999 (by decide)).2.2.2.1,
    (unknown_cycle_defaults_to_one "alice" 500 0 (by decide)).2.2.2.1,
    (unknown_cycle_defaults_to_one "alice" 500 (-3) (by decide)).2.2.2.1⟩

/-- C14. The factor lookup is a total function of the cycle id.  In hundredths the factor
is `100` for cycle 1 and `48` for cycle 14, each cycle from 2 to 14 is exactly `4`
hundredths below the previous one (so the factor is strictly decreasing on `1..14`), and
it is `100` for every cycle id outside `1..14`. -/
theorem conversion_table_shape (c d : Int) :
    conversionFactor c * 100 = ((scale c : Int) : ℚ) ∧
    scale 1 = 100 ∧ scale 14 = 48 ∧
    (1 ≤ c ∧ c ≤ 14 → scale c = 100 - 4 * (c - 1)) ∧
    (1 ≤ c ∧ c < 14 → scale (c + 1) = scale c - 4) ∧
    (1 ≤ c ∧ c < d ∧ d ≤ 14 → conversionFactor d < conversionFactor c) ∧
    (c < 1 ∨ 14 < c → scale c = 100 ∧ conversionFactor c = 1) := by
  refine ⟨(scale_cast c).symm, by decide!, by decide!, ?_, ?_, ?_, ?_⟩
  · rintro ⟨h1, h2⟩
    rw [scale_known c h1 h2]; ring
  · rintro ⟨h1, h2⟩
    rw [scale_known c h1 (by omega), scale_known (c + 1) (by omega) (by omega)]; ring
  · rintro ⟨h1, h2, h3⟩
    have hc := scale_cast c
    have hd := scale_cast d
    rw [scale_known c h1 (by omega)] at hc
    rw [scale_known d (by omega) h3] at hd
    have hlt : ((104 - 4 * d : Int) : ℚ) < ((104 - 4 * c : Int) : ℚ) := by
      exact_mod_cast (by omega : 104 - 4 * d < 104 - 4 * c)
    rw [hc, hd] at hlt
    linarith
  · intro h
    have hc : ¬ (1 ≤ c ∧ c ≤ 14) := by omega
    exact ⟨scale_unknown c hc, conversionFactor_unknown c hc⟩

/-- C17. For every cycle id the divisor `round(factor * 100)` of line 62 lies between
`48` and `100`, so it is at least `1` and never zero, and the BigInt division takes its
normal path for every input: it returns the amount `titanXAmount` and never throws. -/
theorem conversion_never_divides_by_zero (p c : Int) :
    1 ≤ mathRound (conversionFactor c * 100) ∧
    48 ≤ mathRound (conversionFactor c * 100) ∧
    mathRound (conversionFactor c * 100) ≤ 100 ∧
    mathRound (conversionFactor c * 100) ≠ 0 ∧
    titanXAmountChecked p c = Except.ok (titanXAmount p c) := by
  have h1 : 48 ≤ mathRound (conversionFactor c * 100) := scale_ge c
  have h2 : mathRound (conversionFactor c * 100) ≤ 100 := scale_le c
  have h0 : scale c ≠ 0 := by have := scale_pos c; omega
  refine ⟨by omega, h1, h2, by omega, ?_⟩
  unfold titanXAmountChecked bigIntDiv
  rw [if_neg h0]
  rfl

/-! ## Effect of one call on the store -/

theorem users_merge_mem (u v : String) (m t : Int) (es : List UserEvent) :
    v ∈ (mergeUserEvent u m t es).map (fun e => e.user) ↔
      v ∈ es.map (fun e => e.user) ∨ v = u := by
  rw [users_merge]
  split
  · next hin =>
    constructor
    · exact Or.inl
    · rintro (h | h)
      · exact h
      · exact h ▸ hin
  · simp

theorem users_merge_nodup (u : String) (m t : Int) (es : List UserEvent)
    (h : (es.map (fun e => e.user)).Nodup) :
    ((mergeUserEvent u m t es).map (fun e => e.user)).Nodup := by
  rw [users_merge]
  split
  · exact h
  · next hn =>
    rw [List.nodup_append]
    refine ⟨h, List.nodup_singleton _, ?_⟩
    intro a ha hb
    rw [List.mem_singleton] at hb
    exact hn (hb ▸ ha)

theorem addOrUpdateUserEvent_users_mem (u v : String) (m c : Int) (s : State) :
    v ∈ (addOrUpdateUserEvent u m c s).events.map (fun e => e.user) ↔
      v ∈ s.events.map (fun e => e.user) ∨ v = u := by
  rw [((addOrUpdateUserEvent_perm u m c s).map (fun e => e.user)).mem_iff, users_merge_mem]

theorem addOrUpdateUserEvent_nodup (u : String) (m c : Int) (s : State)
    (h : (s.events.map (fun e => e.user)).Nodup) :
    ((addOrUpdateUserEvent u m c s).events.map (fun e => e.user)).Nodup := by
  rw [((addOrUpdateUserEvent_perm u m c s).map (fun e => e.user)).nodup_iff]
  exact users_merge_nodup u m _ s.events h

theorem addOrUpdateUserEvent_storedMorpheus (u v : String) (m c : Int) (s : State) :
    storedMorpheus v (addOrUpdateUserEvent u m c s).events =
      storedMorpheus v s.events + (if u == v then m else 0) := by
  rw [storedMorpheus_perm v (addOrUpdateUserEvent_perm u m c s), storedMorpheus_merge]

theorem addOrUpdateUserEvent_storedTitanX (u v : String) (m c : Int) (s : State) :
    storedTitanX v (addOrUpdateUserEvent u m c s).events =
      storedTitanX v s.events + (if u == v then titanXAmount m c else 0) := by
  rw [storedTitanX_perm v (addOrUpdateUserEvent_perm u m c s), storedTitanX_merge]

theorem mergeUserEvent_absent (u : String) (m t : Int) (es : List UserEvent)
    (h : u ∉ es.map (fun e => e.user)) :
    mergeUserEvent u m t es =
      es ++ [{ user := u, morpheusAmount := m, titanXAmount := t }] := by
  induction es with
  | nil => rfl
  | cons e es ih =>
    rw [List.map_cons, List.mem_cons, not_or] at h
    have hne : ¬ (e.user == u) = true := by
      intro hb
      have heq : e.user = u := by simpa using hb
      exact h.1 heq.symm
    rw [mergeUserEvent_cons, if_neg hne, ih h.2]
    rfl

theorem mergeUserEvent_present (u : String) (m t : Int) (es : List UserEvent)
    (hnd : (es.map (fun e => e.user)).Nodup) (r0 : UserEvent) (hr : r0 ∈ es)
    (hu : r0.user = u) :
    (mergeUserEvent u m t es).Perm (bump r0 m t :: es.erase r0) := by
  induction es with
  | nil => cases hr
  | cons e es ih =>
    rw [List.map_cons, List.nodup_cons] at hnd
    rw [mergeUserEvent_cons]
    by_cases he : (e.user == u) = true
    · have heu : e.user = u := by simpa using he
      have hre : r0 = e := by
        rcases List.mem_cons.1 hr with h | h
        · exact h
        · exfalso
          apply hnd.1
          rw [heu, ← hu]
          exact List.mem_map_of_mem (fun e => e.user) h
      subst hre
      rw [if_pos he, List.erase_cons_head]
      exact List.Perm.refl _
    · have hne : ¬ e = r0 := by
        intro h
        apply he
        rw [h, hu]
        exact beq_self_eq_true u
      have hr2 : r0 ∈ es := by
        rcases List.mem_cons.1 hr with h | h
        · exact absurd h.symm hne
        · exact h
      have hb : ¬ (e == r0) = true := by simpa using hne
      rw [if_neg he, List.erase_cons_tail hb]
      exact ((ih hnd.2 hr2).cons e).trans (List.Perm.swap _ _ _)

/-- C13. On a store with at most one record per user, `addOrUpdateUserEvent(u, p, c)`
leaves, up to the order of the records: the old records and one new record for `u` with
`morpheusAmount = p` and `titanXAmount` the converted amount, when `u` had no record; the
old records with the record of `u` replaced by the one whose two amounts are the old
amounts plus `p` and plus the converted amount, when `u` had a record.  All other records
are kept as they were and no other record is added. -/
theorem effect_of_one_apply (s : State) (u : String) (p c : Int)
    (hnd : (s.events.map (fun e => e.user)).Nodup) :
    (u ∉ s.events.map (fun e => e.user) →
      (addOrUpdateUserEvent u p c s).events.Perm
        (s.events ++ [{ user := u, morpheusAmount := p, titanXAmount := titanXAmount p c }]) ∧
      (addOrUpdateUserEvent u p c s).events.length = s.events.length + 1) ∧
    (∀ r0 ∈ s.events, r0.user = u →
      (addOrUpdateUserEvent u p c s).events.Perm
        ({ user := u, morpheusAmount := r0.morpheusAmount + p,
           titanXAmount := r0.titanXAmount + titanXAmount p c } :: s.events.erase r0) ∧
      (addOrUpdateUserEvent u p c s).events.length = s.events.length) := by
  have hp := addOrUpdateUserEvent_perm u p c s
  constructor
  · intro hu
    rw [mergeUserEvent_absent u p _ s.events hu] at hp
    refine ⟨hp, ?_⟩
    rw [hp.length_eq, List.length_append]
    rfl
  · intro r0 hr hu
    have hp2 := hp.trans (mergeUserEvent_present u p (titanXAmount p c) s.events hnd r0 hr hu)
    have hb : bump r0 p (titanXAmount p c) =
        { user := u, morpheusAmount := r0.morpheusAmount + p,
          titanXAmount := r0.titanXAmount + titanXAmount p c } := by
      rw [← hu]; rfl
    rw [hb] at hp2
    refine ⟨hp2, ?_⟩
    rw [hp2.length_eq, List.length_cons, List.length_erase_of_mem hr]
    have : 0 < s.events.length := List.length_pos_of_mem hr
    omega

/-- C13 at a concrete input: on the store `alice (100, 208)`, `bob (150, 150)`, a call for
`bob` with `50` at cycle 2 (converted `52`) and a call for the new user `carol`. -/
theorem effect_of_one_apply_example :
    (exampleStore.events.map (fun e => e.user)).Nodup ∧
    (addOrUpdateUserEvent "bob" 50 2 exampleStore).events =
      [{ user := "alice", morpheusAmount := 100, titanXAmount := 208 },
       { user := "bob", morpheusAmount := 200, titanXAmount := 202 }] ∧
    ((addOrUpdateUserEvent "carol" 7 1 exampleStore).events.Perm
        (exampleStore.events ++
          [{ user := "carol", morpheusAmount := 7, titanXAmount := titanXAmount 7 1 }]) ∧
      (addOrUpdateUserEvent "carol" 7 1 exampleStore).events.length =
        exampleStore.events.length + 1) :=
  ⟨by decide!, by decide!,
    (effect_of_one_apply exampleStore "carol" 7 1 (by decide!)).1 (by decide!)⟩

theorem applyCalls_nodup (calls : List (String × Int × Int)) (s : State)
    (hnd : (s.events.map (fun e => e.user)).Nodup) :
    ((applyCalls calls s).events.map (fun e => e.user)).Nodup := by
  induction calls generalizing s with
  | nil => exact hnd
  | cons x xs ih =>
    rw [applyCalls_cons]
    exact ih _ (addOrUpdateUserEvent_nodup _ _ _ s hnd)

/-- C16. `addOrUpdateUserEvent` keeps the user a unique key: a store without two records
of one user has none after the call, nor after any sequence of calls; hence, starting
from the empty store, the store holds exactly one record for every user called for and
none for any other user, and the store of every run (catch-up, then poll cycles) has no
two records of one user. -/
theorem user_is_unique_key (s : State) (u : String) (p c : Int)
    (calls : List (String × Int × Int)) (startingBlock : Nat) (p0 : Provider)
    (ps : List Provider)
    (hnd : (s.events.map (fun e => e.user)).Nodup) :
    ((addOrUpdateUserEvent u p c s).events.map (fun e => e.user)).Nodup ∧
    ((applyCalls calls s).events.map (fun e => e.user)).Nodup ∧
    ((applyCalls calls State.initial).events.map (fun e => e.user)).Nodup ∧
    (∀ v, ((applyCalls calls State.initial).events.map (fun e => e.user)).count v =
      if v ∈ calls.map (fun x => x.1) then 1 else 0) ∧
    ((run startingBlock p0 ps State.initial).events.map (fun e => e.user)).Nodup := by
  have hinit := accounts_applyCalls calls State.initial [] accounts_nil
  rw [List.nil_append] at hinit
  obtain ⟨hn, hmem, _, _⟩ := hinit
  refine ⟨addOrUpdateUserEvent_nodup u p c s hnd, applyCalls_nodup calls s hnd, hn, ?_,
    (exactlyOnce_run startingBlock p0 ps State.initial exactlyOnce_initial).2.1⟩
  · intro v
    have hiff : v ∈ calls.map (fun x => x.1) ↔
        v ∈ (calls.map callLog).map (fun l => l.user) := by
      rw [List.map_map]; rfl
    split
    · next hv =>
      exact List.count_eq_one_of_mem hn ((hmem v).2 (hiff.1 hv))
    · next hv =>
      exact List.count_eq_zero_of_not_mem (fun h => hv (hiff.2 ((hmem v).1 h)))

/-- C16 at a concrete input: the store after `exampleUnsortedCalls`, a further call for
`alice`, and the two calls of `exampleCalls`, both for `alice`. -/
theorem user_is_unique_key_example :
    (exampleStore.events.map (fun e => e.user)).Nodup ∧
    ((addOrUpdateUserEvent "alice" 1 1 exampleStore).events.map (fun e => e.user)).Nodup ∧
    ((applyCalls exampleCalls State.initial).events.map (fun e => e.user)).count "alice" = 1 ∧
    ((applyCalls exampleCalls State.initial).events.map (fun e => e.user)).count "bob" = 0 :=
  ⟨by decide!,
    (user_is_unique_key exampleStore "alice" 1 1 exampleCalls 100
      (chainProvider 200 exampleBatch) [] (by decide!)).1,
    by decide!, by decide!⟩

/-- C19. After every `addOrUpdateUserEvent` call the store is a permutation of the records
it held after the merge step, it is ordered so that `titanXAmount` is non-increasing from
each entry to the next, and the file holds the same list. -/
theorem store_is_sorted_permutation_of_merge (s : State) (u : String) (p c : Int) :
    (addOrUpdateUserEvent u p c s).events.Perm
      (mergeUserEvent u p (titanXAmount p c) s.events) ∧
    SortedByTitanX (addOrUpdateUserEvent u p c s).events ∧
    (addOrUpdateUserEvent u p c s).eventsFile = (addOrUpdateUserEvent u p c s).events :=
  ⟨arraySort_perm _ _, arraySort_sorted _, rfl⟩

/-! ## The converted amount against the primary amount -/

theorem mergeUserEvent_le (u : String) (m t : Int) (es : List UserEvent) (hmt : m ≤ t)
    (h : ∀ r ∈ es, r.morpheusAmount ≤ r.titanXAmount) :
    ∀ r ∈ mergeUserEvent u m t es, r.morpheusAmount ≤ r.titanXAmount := by
  induction es with
  | nil =>
    intro r hr
    rw [mergeUserEvent_nil, List.mem_singleton] at hr
    subst hr
    exact hmt
  | cons e es ih =>
    have he := h e (List.mem_cons_self _ _)
    have hes : ∀ r ∈ es, r.morpheusAmount ≤ r.titanXAmount :=
      fun r hr => h r (List.mem_cons_of_mem _ hr)
    intro r hr
    rw [mergeUserEvent_cons] at hr
    split at hr
    · rcases List.mem_cons.1 hr with rfl | hr
      · show e.morpheusAmount + m ≤ e.titanXAmount + t
        omega
      · exact hes r hr
    · rcases List.mem_cons.1 hr with rfl | hr
      · exact he
      · exact ih hes r hr

/-- C20. For a non-negative amount `p` and any cycle id the converted amount is at least
`p`; therefore, starting from the empty store, after any sequence of calls with
non-negative amounts every record has `titanXAmount >= morpheusAmount`. -/
theorem titanX_not_below_morpheus (p c : Int) (calls : List (String × Int × Int))
    (hp : 0 ≤ p) (h : ∀ x ∈ calls, 0 ≤ x.2.1) :
    p ≤ titanXAmount p c ∧
    ∀ r ∈ (applyCalls calls State.initial).events, r.morpheusAmount ≤ r.titanXAmount := by
  refine ⟨le_titanXAmount p c hp, ?_⟩
  have key : ∀ (cs : List (String × Int × Int)) (s : State), (∀ x ∈ cs, 0 ≤ x.2.1) →
      (∀ r ∈ s.events, r.morpheusAmount ≤ r.titanXAmount) →
      ∀ r ∈ (applyCalls cs s).events, r.morpheusAmount ≤ r.titanXAmount := by
    intro cs
    induction cs with
    | nil => intro s _ hs; exact hs
    | cons x xs ih =>
      intro s hx hs
      rw [applyCalls_cons]
      apply ih _ (fun y hy => hx y (List.mem_cons_of_mem _ hy))
      intro r hr
      have hr2 := (addOrUpdateUserEvent_perm x.1 x.2.1 x.2.2 s).mem_iff.1 hr
      exact mergeUserEvent_le _ _ _ s.events
        (le_titanXAmount _ _ (hx x (List.mem_cons_self _ _))) hs r hr2
  exact key calls State.initial h (fun r hr => by cases hr)

/-- C20 at a concrete input: amount `100` at cycle 14 converts to `208`, and the store
after `exampleUnsortedCalls`. -/
theorem titanX_not_below_morpheus_example :
    (0 : Int) ≤ 100 ∧ (∀ x ∈ exampleUnsortedCalls, 0 ≤ x.2.1) ∧
    (100 : Int) ≤ titanXAmount 100 14 ∧ titanXAmount 100 14 = 208 ∧
    ∀ r ∈ (applyCalls exampleUnsortedCalls State.initial).events,
      r.morpheusAmount ≤ r.titanXAmount :=
  ⟨by decide, by decide,
    (titanX_not_below_morpheus 100 14 exampleUnsortedCalls (by decide) (by decide)).1,
    by decide!,
    (titanX_not_below_morpheus 100 14 exampleUnsortedCalls (by decide) (by decide)).2⟩

/-! ## Commutative accumulation -/

theorem perm_of_same_totals (es fs : List UserEvent)
    (hes : (es.map (fun e => e.user)).Nodup) (hfs : (fs.map (fun e => e.user)).Nodup)
    (hu : ∀ v, v ∈ es.map (fun e => e.user) → v ∈ fs.map (fun e => e.user))
    (hu2 : ∀ v, v ∈ fs.map (fun e => e.user) → v ∈ es.map (fun e => e.user))
    (hm : ∀ v, storedMorpheus v es = storedMorpheus v fs)
    (ht : ∀ v, storedTitanX v es = storedTitanX v fs) : es.Perm fs := by
  have key : ∀ (as bs : List UserEvent), (as.map (fun e => e.user)).Nodup →
      (bs.map (fun e => e.user)).Nodup →
      (∀ v, v ∈ as.map (fun e => e.user) → v ∈ bs.map (fun e => e.user)) →
      (∀ v, storedMorpheus v as = storedMorpheus v bs) →
      (∀ v, storedTitanX v as = storedTitanX v bs) → ∀ r ∈ as, r ∈ bs := by
    intro as bs has hbs hsub hm2 ht2 r hr
    obtain ⟨r2, hr2, hru⟩ := List.mem_map.1 (hsub r.user (List.mem_map_of_mem _ hr))
    have h1 := stored_of_mem as has r hr
    have h2 := stored_of_mem bs hbs r2 hr2
    have hru2 : r2.user = r.user := hru
    rw [hru2, ← hm2 r.user, h1.1] at h2
    rw [← ht2 r.user, h1.2] at h2
    have : r2 = r := by
      cases r; cases r2
      simp only [UserEvent.mk.injEq]
      exact ⟨hru2, h2.1.symm, h2.2.symm⟩
    exact this ▸ hr2
  refine (List.perm_ext_iff_of_nodup hes.of_map hfs.of_map).2 (fun r => ⟨?_, ?_⟩)
  · exact key es fs hes hfs hu hm ht r
  · exact key fs es hfs hes hu2 (fun v => (hm v).symm) (fun v => (ht v).symm) r

/-- C11. Applying two events in either order gives every user the same total
`morpheusAmount` and the same total `titanXAmount`; on a store with at most one record per
user the two resulting stores hold the same records (in some order).  When both events
are for one user, that user's totals are the totals before plus both amounts and plus
both converted amounts, in either order. -/
theorem commutative_accumulation (s : State) (u1 u2 : String) (p1 c1 p2 c2 : Int) :
    (∀ v,
      storedMorpheus v (addOrUpdateUserEvent u2 p2 c2 (addOrUpdateUserEvent u1 p1 c1 s)).events =
        storedMorpheus v
          (addOrUpdateUserEvent u1 p1 c1 (addOrUpdateUserEvent u2 p2 c2 s)).events ∧
      storedTitanX v (addOrUpdateUserEvent u2 p2 c2 (addOrUpdateUserEvent u1 p1 c1 s)).events =
        storedTitanX v
          (addOrUpdateUserEvent u1 p1 c1 (addOrUpdateUserEvent u2 p2 c2 s)).events) ∧
    ((s.events.map (fun e => e.user)).Nodup →
      (addOrUpdateUserEvent u2 p2 c2 (addOrUpdateUserEvent u1 p1 c1 s)).events.Perm
        (addOrUpdateUserEvent u1 p1 c1 (addOrUpdateUserEvent u2 p2 c2 s)).events) ∧
    (u1 = u2 →
      storedMorpheus u1 (addOrUpdateUserEvent u2 p2 c2 (addOrUpdateUserEvent u1 p1 c1 s)).events =
        storedMorpheus u1 s.events + p1 + p2 ∧
      storedMorpheus u1 (addOrUpdateUserEvent u1 p1 c1 (addOrUpdateUserEvent u2 p2 c2 s)).events =
        storedMorpheus u1 s.events + p1 + p2 ∧
      storedTitanX u1 (addOrUpdateUserEvent u2 p2 c2 (addOrUpdateUserEvent u1 p1 c1 s)).events =
        storedTitanX u1 s.events + titanXAmount p1 c1 + titanXAmount p2 c2 ∧
      storedTitanX u1 (addOrUpdateUserEvent u1 p1 c1 (addOrUpdateUserEvent u2 p2 c2 s)).events =
        storedTitanX u1 s.events + titanXAmount p1 c1 + titanXAmount p2 c2) ∧
    ((s.events.map (fun e => e.user)).Nodup → u1 = u2 →
      ∀ r ∈ (addOrUpdateUserEvent u2 p2 c2 (addOrUpdateUserEvent u1 p1 c1 s)).events,
        r.user = u1 →
        r.morpheusAmount = storedMorpheus u1 s.events + p1 + p2 ∧
        r.titanXAmount = storedTitanX u1 s.events + titanXAmount p1 c1 + titanXAmount p2 c2) := by
  have hm : ∀ v,
      storedMorpheus v (addOrUpdateUserEvent u2 p2 c2 (addOrUpdateUserEvent u1 p1 c1 s)).events =
        storedMorpheus v
          (addOrUpdateUserEvent u1 p1 c1 (addOrUpdateUserEvent u2 p2 c2 s)).events := by
    intro v
    simp only [addOrUpdateUserEvent_storedMorpheus]
    ring
  have ht : ∀ v,
      storedTitanX v (addOrUpdateUserEvent u2 p2 c2 (addOrUpdateUserEvent u1 p1 c1 s)).events =
        storedTitanX v
          (addOrUpdateUserEvent u1 p1 c1 (addOrUpdateUserEvent u2 p2 c2 s)).events := by
    intro v
    simp only [addOrUpdateUserEvent_storedTitanX]
    ring
  have hsame : u1 = u2 →
      storedMorpheus u1 (addOrUpdateUserEvent u2 p2 c2 (addOrUpdateUserEvent u1 p1 c1 s)).events =
        storedMorpheus u1 s.events + p1 + p2 ∧
      storedTitanX u1 (addOrUpdateUserEvent u2 p2 c2 (addOrUpdateUserEvent u1 p1 c1 s)).events =
        storedTitanX u1 s.events + titanXAmount p1 c1 + titanXAmount p2 c2 := by
    intro hu
    subst hu
    refine ⟨?_, ?_⟩
    · rw [addOrUpdateUserEvent_storedMorpheus, addOrUpdateUserEvent_storedMorpheus]
      simp
    · rw [addOrUpdateUserEvent_storedTitanX, addOrUpdateUserEvent_storedTitanX]
      simp
  refine ⟨fun v => ⟨hm v, ht v⟩, ?_, ?_, ?_⟩
  · intro hnd
    apply perm_of_same_totals _ _
      (addOrUpdateUserEvent_nodup _ _ _ _ (addOrUpdateUserEvent_nodup _ _ _ _ hnd))
      (addOrUpdateUserEvent_nodup _ _ _ _ (addOrUpdateUserEvent_nodup _ _ _ _ hnd))
      _ _ hm ht
    · intro v hv
      simp only [addOrUpdateUserEvent_users_mem] at hv ⊢
      tauto
    · intro v hv
      simp only [addOrUpdateUserEvent_users_mem] at hv ⊢
      tauto
  · intro hu
    obtain ⟨h1, h2⟩ := hsame hu
    exact ⟨h1, (hm u1) ▸ h1, h2, (ht u1) ▸ h2⟩
  · intro hnd hu r hr hru
    obtain ⟨h1, h2⟩ := hsame hu
    have hst := stored_of_mem _
      (addOrUpdateUserEvent_nodup u2 p2 c2 _ (addOrUpdateUserEvent_nodup u1 p1 c1 s hnd)) r hr
    rw [hru] at hst
    exact ⟨hst.1 ▸ h1, hst.2 ▸ h2⟩

/-- C11 at concrete inputs.  On the store `alice (100, 208)`, `bob (150, 150)` two
events for `bob` give `bob` the totals `150 + 50 + 7` and `150 + 52 + 7` in either order;
on the empty store two events of equal converted amount for two users give the same two
records in either order, listed in opposite order. -/
theorem commutative_accumulation_example :
    (addOrUpdateUserEvent "bob" 7 1 (addOrUpdateUserEvent "bob" 50 2 exampleStore)).events =
      [{ user := "bob", morpheusAmount := 207, titanXAmount := 209 },
       { user := "alice", morpheusAmount := 100, titanXAmount := 208 }] ∧
    (addOrUpdateUserEvent "bob" 50 2 (addOrUpdateUserEvent "bob" 7 1 exampleStore)).events =
      [{ user := "bob", morpheusAmount := 207, titanXAmount := 209 },
       { user := "alice", morpheusAmount := 100, titanXAmount := 208 }] ∧
    (addOrUpdateUserEvent "bob" 5 1 (addOrUpdateUserEvent "alice" 5 1 State.initial)).events =
      [{ user := "bob", morpheusAmount := 5, titanXAmount := 5 },
       { user := "alice", morpheusAmount := 5, titanXAmount := 5 }] ∧
    (addOrUpdateUserEvent "alice" 5 1 (addOrUpdateUserEvent "bob" 5 1 State.initial)).events =
      [{ user := "alice", morpheusAmount := 5, titanXAmount := 5 },
       { user := "bob", morpheusAmount := 5, titanXAmount := 5 }] ∧
    (addOrUpdateUserEvent "bob" 5 1 (addOrUpdateUserEvent "alice" 5 1 State.initial)).events.Perm
      (addOrUpdateUserEvent "alice" 5 1 (addOrUpdateUserEvent "bob" 5 1 State.initial)).events :=
  ⟨by decide!, by decide!, by decide!, by decide!,
    (commutative_accumulation State.initial "alice" "bob" 5 1 5 1).2.1 (by decide)⟩

/-! ## Totals never decrease -/

theorem neverDecreases_refl (es : List UserEvent) : NeverDecreases es es :=
  fun r hr => ⟨r, hr, rfl, le_refl _, le_refl _⟩

theorem neverDecreases_trans {es fs gs : List UserEvent} (h1 : NeverDecreases es fs)
    (h2 : NeverDecreases fs gs) : NeverDecreases es gs := by
  intro r hr
  obtain ⟨r2, hr2, hu2, hm2, ht2⟩ := h1 r hr
  obtain ⟨r3, hr3, hu3, hm3, ht3⟩ := h2 r2 hr2
  exact ⟨r3, hr3, hu3.trans hu2, le_trans hm2 hm3, le_trans ht2 ht3⟩

theorem neverDecreases_perm {es fs : List UserEvent} (h : fs.Perm es) : NeverDecreases es fs :=
  fun r hr => ⟨r, h.mem_iff.2 hr, rfl, le_refl _, le_refl _⟩

theorem neverDecreases_merge (u : String) (m t : Int) (es : List UserEvent)
    (hm : 0 ≤ m) (ht : 0 ≤ t) : NeverDecreases es (mergeUserEvent u m t es) := by
  induction es with
  | nil => intro r hr; cases hr
  | cons e es ih =>
    intro r hr
    rw [mergeUserEvent_cons]
    split
    · rcases List.mem_cons.1 hr with rfl | hr
      · refine ⟨_, List.mem_cons_self _ _, rfl, ?_, ?_⟩
        · show r.morpheusAmount ≤ r.morpheusAmount + m
          omega
        · show r.titanXAmount ≤ r.titanXAmount + t
          omega
      · exact ⟨r, List.mem_cons_of_mem _ hr, rfl, le_refl _, le_refl _⟩
    · rcases List.mem_cons.1 hr with rfl | hr
      · exact ⟨r, List.mem_cons_self _ _, rfl, le_refl _, le_refl _⟩
      · obtain ⟨r2, hr2, h2⟩ := ih r hr
        exact ⟨r2, List.mem_cons_of_mem _ hr2, h2⟩

theorem neverDecreases_addOrUpdateUserEvent (u : String) (p c : Int) (s : State) (hp : 0 ≤ p) :
    NeverDecreases s.events (addOrUpdateUserEvent u p c s).events :=
  neverDecreases_trans
    (neverDecreases_merge u p (titanXAmount p c) s.events hp (titanXAmount_nonneg p c hp))
    (neverDecreases_perm (addOrUpdateUserEvent_perm u p c s))

theorem neverDecreases_forEachLog (logs : List Log) (s : State)
    (h : ∀ l ∈ logs, 0 ≤ l.morpheusAmount) :
    NeverDecreases s.events (forEachLog logs s).events := by
  induction logs generalizing s with
  | nil => exact neverDecreases_refl _
  | cons l ls ih =>
    rw [forEachLog_cons]
    have hstep : NeverDecreases s.events (processLog l s).events := by
      cases hc : s.processedEvents.contains (eventId l) with
      | true => rw [processLog_seen l s hc]; exact neverDecreases_refl _
      | false =>
        rw [processLog_new l s hc]
        exact neverDecreases_addOrUpdateUserEvent _ _ _ s (h l (List.mem_cons_self _ _))
    exact neverDecreases_trans hstep (ih _ (fun x hx => h x (List.mem_cons_of_mem _ hx)))

theorem neverDecreases_fetchHistoricalEvents (startingBlock : Nat) (p : Provider) (s : State)
    (h : ∀ a b logs, p.queryFilter a b = some logs → ∀ l ∈ logs, 0 ≤ l.morpheusAmount) :
    NeverDecreases s.events (after (fetchHistoricalEvents startingBlock p s)).events := by
  cases hb : p.getBlockNumber with
  | none =>
    rw [fetchHistoricalEvents_head_fails _ _ _ hb]
    exact neverDecreases_refl _
  | some latestBlock =>
    cases hq : p.queryFilter startingBlock latestBlock with
    | none =>
      rw [fetchHistoricalEvents_query_fails _ _ _ _ hb hq]
      exact neverDecreases_refl _
    | some logs =>
      rw [fetchHistoricalEvents_ok _ _ _ _ _ hb hq]
      exact neverDecreases_forEachLog logs
        { s with io := s.io ++ [Effect.getBlockNumber (some latestBlock)] ++
          [Effect.queryFilter startingBlock latestBlock (some logs)] } (h _ _ logs hq)

theorem neverDecreases_pollForNewEvents (p : Provider) (s : State)
    (h : ∀ a b logs, p.queryFilter a b = some logs → ∀ l ∈ logs, 0 ≤ l.morpheusAmount) :
    NeverDecreases s.events (after (pollForNewEvents p s)).events := by
  cases hb : p.getBlockNumber with
  | none =>
    rw [pollForNewEvents_head_fails _ _ hb]
    exact neverDecreases_refl _
  | some latestBlock =>
    by_cases hc : latestBlock > cursorAfterGuard s.latestBlockProcessed latestBlock
    · cases hq : p.queryFilter (cursorAfterGuard s.latestBlockProcessed latestBlock + 1)
          latestBlock with
      | none =>
        rw [pollForNewEvents_query_fails _ _ _ hb hc hq]
        exact neverDecreases_refl _
      | some logs =>
        rw [pollForNewEvents_ok _ _ _ _ hb hc hq]
        exact neverDecreases_forEachLog logs
          { s with
            latestBlockProcessed := some (cursorAfterGuard s.latestBlockProcessed latestBlock),
            io := s.io ++ [Effect.getBlockNumber (some latestBlock)] ++
              [Effect.queryFilter (cursorAfterGuard s.latestBlockProcessed latestBlock + 1)
                latestBlock (some logs)] } (h _ _ logs hq)
    · rw [pollForNewEvents_no_progress _ _ _ hb hc]
      exact neverDecreases_refl _

/-- C15. With non-negative event amounts, every ingestion step (one
`addOrUpdateUserEvent` call, a catch-up, a poll cycle) keeps every record's user in the
store with a `morpheusAmount` and a `titanXAmount` at least as large as before: no record
is deleted and no total decreases. -/
theorem totals_never_decrease (s : State) (u : String) (p c : Int) (startingBlock : Nat)
    (pr : Provider) (hp : 0 ≤ p)
    (hlogs : ∀ a b logs, pr.queryFilter a b = some logs → ∀ l ∈ logs, 0 ≤ l.morpheusAmount) :
    NeverDecreases s.events (addOrUpdateUserEvent u p c s).events ∧
    NeverDecreases s.events (after (fetchHistoricalEvents startingBlock pr s)).events ∧
    NeverDecreases s.events (after (pollForNewEvents pr s)).events :=
  ⟨neverDecreases_addOrUpdateUserEvent u p c s hp,
    neverDecreases_fetchHistoricalEvents startingBlock pr s hlogs,
    neverDecreases_pollForNewEvents pr s hlogs⟩

/-- C15 at a concrete input: the store `alice (100, 208)`, `bob (150, 150)`, a call for
`bob`, and a catch-up and a poll cycle over the chain `exampleBatch`. -/
theorem totals_never_decrease_example :
    (0 : Int) ≤ 50 ∧ (∀ l ∈ exampleBatch, 0 ≤ l.morpheusAmount) ∧
    NeverDecreases exampleStore.events (addOrUpdateUserEvent "bob" 50 2 exampleStore).events ∧
    NeverDecreases exampleStore.events
      (after (fetchHistoricalEvents 100 (chainProvider 200 exampleBatch) exampleStore)).events ∧
    NeverDecreases exampleStore.events
      (after (pollForNewEvents (chainProvider 200 exampleBatch) exampleStore)).events :=
  ⟨by decide, by decide,
    totals_never_decrease exampleStore "bob" 50 2 100 (chainProvider 200 exampleBatch)
      (by decide)
      (fun a b logs hq l hl => by
        have hsub : logs = queryRange exampleBatch a b := (Option.some.inj hq).symm
        have hmem : l ∈ exampleBatch := by
          rw [hsub] at hl
          exact (List.mem_filter.1 hl).1
        exact (by decide : ∀ x ∈ exampleBatch, 0 ≤ x.morpheusAmount) l hmem)⟩

/-! ## Event ids -/

theorem eventId_eq (l : Log) : eventId l = l.transactionHash ++ "-undefined" := by
  apply String.ext
  simp [eventId, Log.logIndex, templateValue, String.data_append]

theorem eventId_eq_iff (l1 l2 : Log) :
    eventId l1 = eventId l2 ↔ l1.transactionHash = l2.transactionHash := by
  rw [eventId_eq, eventId_eq]
  constructor
  · intro h
    have hd := congrArg String.data h
    rw [String.data_append, String.data_append] at hd
    exact String.ext (List.append_cancel_right hd)
  · intro h
    rw [h]

/-- C18 at a failing input.  `exampleEvent` and `exampleSameTransaction` are two events
of one transaction (hash without `-`) at log positions 0 and 1.  Both get the id
`0xb2-undefined`, and the ingestion step on the second, run after the first, changes
nothing: the Dedup Ledger takes the second event for the first. -/
theorem event_ids_collide_within_a_transaction :
    '-' ∉ exampleEvent.transactionHash.data ∧
    exampleEvent.transactionHash = exampleSameTransaction.transactionHash ∧
    exampleEvent.index ≠ exampleSameTransaction.index ∧
    eventId exampleEvent = "0xb2-undefined" ∧
    eventId exampleSameTransaction = "0xb2-undefined" ∧
    eventId exampleEvent = eventId exampleSameTransaction ∧
    processLog exampleSameTransaction (processLog exampleEvent State.initial) =
      processLog exampleEvent State.initial := by
  decide!

end Mint
